import Mathlib

/-!
Verification of the archival and metrics-aggregation engine of an
Ethereum block-proposal monitor.  The definitions below are a shallow
embedding of the SQLite-backed Python module `db_ops.py`: each table is a
Lean list of row structures, SQL NULL is `Option.none`, SQL REAL is `ℚ`,
and every query / mutation of the source is translated into an executable
Lean function over an explicit database state.
-/

namespace BlockMonitor

/-- One row of the `validators` table. -/
structure Validator where
  id : Nat
  public_key : String
  val_index : Option Int
  deriving Repr, DecidableEq

/-- One row of the `relayers` table. -/
structure Relayer where
  id : Nat
  name : String
  endpoint : String
  deriving Repr, DecidableEq

/-- One row of the `slots` table.  `reward = none` is SQL NULL (unknown). -/
structure SlotRow where
  number : Int
  proposer_id : Option Nat
  proposer_pubkey : Option String
  relay_id : Nat
  missed : Bool
  empty : Bool
  reward : Option ℚ
  deriving Repr, DecidableEq

/-- One row of the `archive_relayer_slots` rollup table. -/
structure ArchRelayerRow where
  relay_id : Nat
  total_slots : Option Int
  total_rewards : Option ℚ
  total_unknown_slots : Option Int
  deriving Repr, DecidableEq

/-- One row of the `archive_validator_slots` rollup table. -/
structure ArchValidatorRow where
  validator_id : Nat
  relay_id : Nat
  total_slots : Option Int
  total_rewards : Option ℚ
  total_missed : Option Int
  total_empty : Option Int
  total_unknown_reward : Option Int
  deriving Repr, DecidableEq

/-- One row of the `slot_sync_committee` table. -/
structure SyncRow where
  slot_number : Int
  validator_id : Nat
  participated : Bool
  deriving Repr, DecidableEq

/-- The whole database state.  `archive = none` / `sync = none` model the
archive tables and the sync-committee table not having been created yet
(they are created lazily by the source).  `has_val_index` models whether
the `val_index` column has been added to the `validators` table. -/
structure DB where
  validators : List Validator
  relayers : List Relayer
  slots : List SlotRow
  archive : Option (List ArchRelayerRow × List ArchValidatorRow)
  sync : Option (List SyncRow)
  has_val_index : Bool
  deriving Repr, DecidableEq

/-- Result of a mutating operation: `ok = false` models a raised Python
exception, with `db` the state left behind (all writes committed before
the raise). -/
structure OpResult where
  ok : Bool
  db : DB
  deriving Repr, DecidableEq

/-- Rows of the archive relayer rollup, an absent table reading as empty
(the source treats a missing archive as empty rollups). -/
def archRelRows (db : DB) : List ArchRelayerRow := (db.archive.getD ([], [])).1

/-- Rows of the archive validator rollup, an absent table reading as empty. -/
def archValRows (db : DB) : List ArchValidatorRow := (db.archive.getD ([], [])).2

/-- Rows of the sync-committee table, an absent table reading as empty. -/
def syncRows (db : DB) : List SyncRow := db.sync.getD []

/-! ### Dictionaries built by `execute_query_dict`

The Python helper `execute_query_dict` turns the rows of a query into a
dict mapping the first column to the second; a later row with the same
key overwrites the earlier value.  We model such dicts as association
lists whose values are `Option`s (the second column may be SQL NULL). -/

/-- A metric dictionary: key is a relay name or validator public key,
value is the (possibly NULL) second column of the query. -/
abbrev Dict (V : Type) := List (String × Option V)

/-- Lookup in a dict: `none` means the key is absent, `some none` means
the key is present with a SQL NULL value. -/
def dlookup {V : Type} (d : Dict V) (k : String) : Option (Option V) :=
  (d.find? (fun p => p.1 = k)).map (fun p => p.2)

/-- Python dict assignment `d[k] = v`: overwrite the entry if the key is
present, append it otherwise. -/
def dictUpsert {V : Type} (d : Dict V) (k : String) (v : Option V) : Dict V :=
  if (d.find? (fun p => p.1 = k)).isSome then
    d.map (fun p => if p.1 = k then (p.1, v) else p)
  else d ++ [(k, v)]

/-- Building a dict from query output rows, later duplicates overwriting
earlier ones exactly as in `execute_query_dict`. -/
def buildDict {V : Type} (rows : List (String × Option V)) : Dict V :=
  rows.foldl (fun d kv => dictUpsert d kv.1 kv.2) []

/-- SQL `GROUP BY`: the distinct grouping keys paired with the payloads of
their group, groups listed in first-occurrence order. -/
def groupPairs {κ ρ : Type} [DecidableEq κ] (rows : List (κ × ρ)) :
    List (κ × List ρ) :=
  (rows.map Prod.fst).dedup.map
    (fun k => (k, rows.filterMap (fun p => if p.1 = k then some p.2 else none)))

/-- SQL `SUM` over a column of rationals: NULLs are skipped and the sum of
an all-NULL (or empty) group is NULL. -/
def sqlSumQ (vs : List (Option ℚ)) : Option ℚ :=
  match vs.filterMap id with
  | [] => none
  | l => some l.sum

/-- SQL `SUM` over a column of integers. -/
def sqlSumZ (vs : List (Option Int)) : Option Int :=
  match vs.filterMap id with
  | [] => none
  | l => some l.sum

/-- SQL `AVG` over a column of rationals: the mean of the non-NULL values,
NULL when there are none. -/
def sqlAvgQ (vs : List (Option ℚ)) : Option ℚ :=
  match vs.filterMap id with
  | [] => none
  | l => some (l.sum / l.length)

/-- SQL addition: NULL-poisoning. -/
def sqlAddQ (a b : Option ℚ) : Option ℚ :=
  match a, b with
  | some x, some y => some (x + y)
  | _, _ => none

/-- SQL division: NULL-poisoning, and division by zero yields NULL
(SQLite semantics). -/
def sqlDivQ (a b : Option ℚ) : Option ℚ :=
  match a, b with
  | some x, some y => if y = 0 then none else some (x / y)
  | _, _ => none

/-- The count of a nonempty group, `none` for a group the query does not
produce (used where the source reads a missing dict key as NULL). -/
def posCount (c : Nat) : Option Int :=
  if c > 0 then some (c : Int) else none

end BlockMonitor

namespace BlockMonitor

/-! ### Joins -/

/-- The relayer row a slot's `relay_id` joins to (`JOIN relayers r ON
s.relay_id = r.id`); slots with no matching relayer drop out of the join. -/
def relayerOfSlot (db : DB) (s : SlotRow) : Option Relayer :=
  db.relayers.find? (fun r => r.id = s.relay_id)

/-- The validator row a slot's `proposer_id` joins to (`JOIN validators v
ON s.proposer_id = v.id`); a NULL or unmatched proposer drops out. -/
def validatorOfSlot (db : DB) (s : SlotRow) : Option Validator :=
  s.proposer_id.bind (fun pid => db.validators.find? (fun v => v.id = pid))

/-- Slots joined to `relayers`, keyed by relay name. -/
def relayRows (db : DB) : List (String × SlotRow) :=
  db.slots.filterMap (fun s => (relayerOfSlot db s).map (fun r => (r.name, s)))

/-- Slots joined to `validators`, keyed by validator public key. -/
def valRows (db : DB) : List (String × SlotRow) :=
  db.slots.filterMap (fun s => (validatorOfSlot db s).map (fun v => (v.public_key, s)))

/-- Slots joined to both `validators` and `relayers`, keyed by relay name. -/
def valRelayRows (db : DB) : List (String × SlotRow) :=
  db.slots.filterMap (fun s =>
    (validatorOfSlot db s).bind (fun _ =>
      (relayerOfSlot db s).map (fun r => (r.name, s))))

/-! ### The eleven live-table metric queries -/

/-- Builds a count dict `SELECT key, COUNT(*) ... GROUP BY key`. -/
def countDict (rows : List (String × SlotRow)) : Dict Int :=
  buildDict ((groupPairs rows).map (fun kg => (kg.1, some (kg.2.length : Int))))

/-- Python `get_relay_blocks_proposed`: blocks per relay, tracked
validators only. -/
def get_relay_blocks_proposed (db : DB) : Dict Int :=
  countDict (valRelayRows db)

/-- Python `get_validator_blocks_proposed`. -/
def get_validator_blocks_proposed (db : DB) : Dict Int :=
  countDict (valRows db)

/-- Python `get_missed_block_proposals`. -/
def get_missed_block_proposals (db : DB) : Dict Int :=
  countDict ((valRows db).filter (fun p => p.2.missed))

/-- Python `get_empty_block_proposals`. -/
def get_empty_block_proposals (db : DB) : Dict Int :=
  countDict ((valRows db).filter (fun p => p.2.empty))

/-- Python `get_total_relay_blocks_proposed`: all blocks per relay. -/
def get_total_relay_blocks_proposed (db : DB) : Dict Int :=
  countDict (relayRows db)

/-- Python `get_relay_total_rewards`: `SUM(s.reward)` per relay name. -/
def get_relay_total_rewards (db : DB) : Dict ℚ :=
  buildDict ((groupPairs (relayRows db)).map
    (fun kg => (kg.1, sqlSumQ (kg.2.map (fun s => s.reward)))))

/-- Python `get_avg_relay_rewards`: `AVG(s.reward)` per relay over
non-missed, non-empty slots with a known reward. -/
def get_avg_relay_rewards (db : DB) : Dict ℚ :=
  buildDict ((groupPairs ((relayRows db).filter
      (fun p => !p.2.missed && !p.2.empty && p.2.reward.isSome))).map
    (fun kg => (kg.1, sqlAvgQ (kg.2.map (fun s => s.reward)))))

/-- Python `get_unknown_reward_blocks`: NULL-reward blocks per relay. -/
def get_unknown_reward_blocks (db : DB) : Dict Int :=
  countDict ((relayRows db).filter (fun p => p.2.reward.isNone))

/-- Python `get_total_validator_rewards`: `SUM(s.reward)` per relay over
tracked-validator slots with a known reward. -/
def get_total_validator_rewards (db : DB) : Dict ℚ :=
  buildDict ((groupPairs ((valRelayRows db).filter
      (fun p => p.2.reward.isSome))).map
    (fun kg => (kg.1, sqlSumQ (kg.2.map (fun s => s.reward)))))

/-- Python `get_avg_validator_rewards`: `AVG(s.reward)` per relay over
tracked-validator slots with a known reward. -/
def get_avg_validator_rewards (db : DB) : Dict ℚ :=
  buildDict ((groupPairs ((valRelayRows db).filter
      (fun p => p.2.reward.isSome))).map
    (fun kg => (kg.1, sqlAvgQ (kg.2.map (fun s => s.reward)))))

/-- Python `get_validator_unknown_reward_blocks`. -/
def get_validator_unknown_reward_blocks (db : DB) : Dict Int :=
  countDict ((valRelayRows db).filter (fun p => p.2.reward.isNone))

/-! ### The archive metric queries -/

/-- Archive relayer rows joined to `relayers`. -/
def archRelJoin (db : DB) : List (Relayer × ArchRelayerRow) :=
  (archRelRows db).filterMap (fun a =>
    (db.relayers.find? (fun r => r.id = a.relay_id)).map (fun r => (r, a)))

/-- Archive validator rows joined to `relayers`. -/
def archValJoinRel (db : DB) : List (Relayer × ArchValidatorRow) :=
  (archValRows db).filterMap (fun a =>
    (db.relayers.find? (fun r => r.id = a.relay_id)).map (fun r => (r, a)))

/-- Archive validator rows joined to `validators`. -/
def archValJoinVal (db : DB) : List (Validator × ArchValidatorRow) :=
  (archValRows db).filterMap (fun a =>
    (db.validators.find? (fun v => v.id = a.validator_id)).map (fun v => (v, a)))

/-- Python `archive_get_relay_blocks_proposed`: `SUM(total_slots)` per
relay (grouping key `r.id`, which is the relayer row since ids are the
primary key). -/
def archive_get_relay_blocks_proposed (db : DB) : Dict Int :=
  buildDict ((groupPairs (archValJoinRel db)).map
    (fun kg => (kg.1.name, sqlSumZ (kg.2.map (fun a => a.total_slots)))))

/-- Python `archive_get_validator_blocks_proposed`. -/
def archive_get_validator_blocks_proposed (db : DB) : Dict Int :=
  buildDict ((groupPairs (archValJoinVal db)).map
    (fun kg => (kg.1.public_key, sqlSumZ (kg.2.map (fun a => a.total_slots)))))

/-- Python `archive_get_missed_block_proposals`. -/
def archive_get_missed_block_proposals (db : DB) : Dict Int :=
  buildDict ((groupPairs ((archValJoinVal db).filter
      (fun p => p.2.total_missed.isSome))).map
    (fun kg => (kg.1.public_key, sqlSumZ (kg.2.map (fun a => a.total_missed)))))

/-- Python `archive_get_empty_block_proposals`. -/
def archive_get_empty_block_proposals (db : DB) : Dict Int :=
  buildDict ((groupPairs ((archValJoinVal db).filter
      (fun p => p.2.total_empty.isSome))).map
    (fun kg => (kg.1.public_key, sqlSumZ (kg.2.map (fun a => a.total_empty)))))

/-- Python `archive_get_total_relay_blocks_proposed`: per archive relayer
row, `total_slots + COALESCE(total_unknown_slots, 0)` (SQL NULL-poisoning:
a NULL `total_slots` makes the whole value NULL). -/
def archive_get_total_relay_blocks_proposed (db : DB) : Dict Int :=
  buildDict ((archRelJoin db).map (fun p =>
    (p.1.name, p.2.total_slots.map (fun t => t + p.2.total_unknown_slots.getD 0))))

/-- Python `archive_get_relay_total_rewards`. -/
def archive_get_relay_total_rewards (db : DB) : Dict ℚ :=
  buildDict ((archRelJoin db).map (fun p => (p.1.name, p.2.total_rewards)))

/-- Python `archive_get_avg_relay_rewards`: one row per archive relayer
row (grouped by its unique `relay_id`), LEFT JOINing the still-live
qualifying slots of the same relay:
`(total_rewards + COALESCE(SUM(s.reward),0)) /
 (total_slots + COALESCE(COUNT(s.reward),0))`. -/
def archive_get_avg_relay_rewards (db : DB) : Dict ℚ :=
  buildDict ((archRelJoin db).map (fun p =>
    (p.1.name,
      sqlDivQ (sqlAddQ p.2.total_rewards
        (some (((db.slots.filter (fun s => s.relay_id = p.1.id && !s.missed &&
          !s.empty && s.reward.isSome)).filterMap (fun s => s.reward)).sum)))
        (sqlAddQ (p.2.total_slots.map (fun (t : Int) => (t : ℚ)))
          (some (((db.slots.filter (fun s => s.relay_id = p.1.id && !s.missed &&
            !s.empty && s.reward.isSome)).length : Nat) : ℚ))))))

/-- Python `archive_get_unknown_reward_blocks`. -/
def archive_get_unknown_reward_blocks (db : DB) : Dict Int :=
  buildDict (((archRelJoin db).filter (fun p => p.2.total_unknown_slots.isSome)).map
    (fun p => (p.1.name, p.2.total_unknown_slots)))

/-- Python `archive_get_total_validator_rewards` (grouped by relay name). -/
def archive_get_total_validator_rewards (db : DB) : Dict ℚ :=
  buildDict ((groupPairs (((archValJoinRel db).filter
      (fun p => p.2.total_rewards.isSome)).map (fun p => (p.1.name, p.2)))).map
    (fun kg => (kg.1, sqlSumQ (kg.2.map (fun a => a.total_rewards)))))

/-- Python `archive_get_avg_validator_rewards`: UNION ALL of the archive
validator rollup (with `total_slots - COALESCE(total_unknown_reward,0)`
as the weight) and the live qualifying tracked-validator slots (weight 1),
then `SUM(rewards)/SUM(weights)` per relay. -/
def archive_get_avg_validator_rewards (db : DB) : Dict ℚ :=
  let xrows : List (Nat × Option ℚ × Option Int) :=
    ((archValRows db).filter (fun a => a.total_rewards.isSome)).map
      (fun a => (a.relay_id, a.total_rewards,
        a.total_slots.map (fun t => t - a.total_unknown_reward.getD 0)))
    ++ (db.slots.filterMap (fun s =>
      (validatorOfSlot db s).bind (fun _ =>
        if s.reward.isSome && !s.missed && !s.empty then
          some (s.relay_id, s.reward, some (1 : Int)) else none)))
  let joined : List (Nat × String × Option ℚ × Option Int) :=
    xrows.filterMap (fun x =>
      (db.relayers.find? (fun r => r.id = x.1)).map (fun r => (x.1, r.name, x.2)))
  buildDict ((groupPairs joined).map (fun kg =>
    (((kg.2.head?).map (fun t => t.1)).getD "",
      sqlDivQ (sqlSumQ (kg.2.map (fun t => t.2.1)))
        ((sqlSumZ (kg.2.map (fun t => t.2.2))).map (fun (z : Int) => (z : ℚ))))))

/-- Python `archive_get_validator_unknown_reward_blocks`. -/
def archive_get_validator_unknown_reward_blocks (db : DB) : Dict Int :=
  buildDict ((groupPairs (((archValJoinRel db).filter
      (fun p => p.2.total_unknown_reward.isSome)).map (fun p => (p.1.name, p.2)))).map
    (fun kg => (kg.1, sqlSumZ (kg.2.map (fun a => a.total_unknown_reward)))))

end BlockMonitor

namespace BlockMonitor

/-! ### Combining live and archive dicts -/

/-- One step of the regular-dict loop of `join_archive_queries`: for a key
already present, `avg` keeps the archive value and otherwise the values
are added with `combined_dict[key] += value`, which raises a Python
`TypeError` (modelled as `none`) if either side is SQL NULL. -/
def joinStep {V : Type} [Add V] (avg : Bool) (d : Dict V) (kv : String × Option V) :
    Option (Dict V) :=
  match d.find? (fun p => p.1 = kv.1) with
  | some hit =>
    if avg then some d
    else
      match hit.2, kv.2 with
      | some a, some b =>
        some (d.map (fun p => if p.1 = kv.1 then (p.1, some (a + b)) else p))
      | _, _ => none
  | none => some (d ++ [kv])

/-- Python `join_archive_queries`: copy the archive dict, then merge the
regular dict into it key by key. -/
def join_archive_queries {V : Type} [Add V] (reg_dict archive_dict : Dict V)
    (avg : Bool := false) : Option (Dict V) :=
  reg_dict.foldlM (joinStep avg)
    (archive_dict.foldl (fun d kv => dictUpsert d kv.1 kv.2) [])

/-- The eleven metric maps produced by `get_metrics_from_db`. -/
structure Metrics where
  relayBlocksProposed : Dict Int
  totalRelayBlocksProposed : Dict Int
  relayTotalRewards : Dict ℚ
  avgRelayerRewards : Dict ℚ
  unknownRewardsBlocks : Dict Int
  validatorBlocksProposed : Dict Int
  missedBlockProposals : Dict Int
  emptyBlockProposals : Dict Int
  totalValidatorRewards : Dict ℚ
  avgValidatorRewards : Dict ℚ
  valUnknownRewardBlocks : Dict Int
  deriving Repr, DecidableEq

/-- Python `archive_exists`. -/
def archive_exists (db : DB) : Bool := db.archive.isSome

/-- Python `get_metrics_from_db`: combine live and archive dicts when the
archive tables exist, otherwise use the live dicts alone.  A `TypeError`
raised inside a join propagates, making the whole call fail. -/
def get_metrics_from_db (db : DB) : Option Metrics :=
  if archive_exists db then do
    let m1 ← join_archive_queries (get_relay_blocks_proposed db)
      (archive_get_relay_blocks_proposed db)
    let m2 ← join_archive_queries (get_total_relay_blocks_proposed db)
      (archive_get_total_relay_blocks_proposed db)
    let m3 ← join_archive_queries (get_relay_total_rewards db)
      (archive_get_relay_total_rewards db)
    let m4 ← join_archive_queries (get_avg_relay_rewards db)
      (archive_get_avg_relay_rewards db) true
    let m5 ← join_archive_queries (get_unknown_reward_blocks db)
      (archive_get_unknown_reward_blocks db)
    let m6 ← join_archive_queries (get_validator_blocks_proposed db)
      (archive_get_validator_blocks_proposed db)
    let m7 ← join_archive_queries (get_missed_block_proposals db)
      (archive_get_missed_block_proposals db)
    let m8 ← join_archive_queries (get_empty_block_proposals db)
      (archive_get_empty_block_proposals db)
    let m9 ← join_archive_queries (get_total_validator_rewards db)
      (archive_get_total_validator_rewards db)
    let m10 ← join_archive_queries (get_avg_validator_rewards db)
      (archive_get_avg_validator_rewards db) true
    let m11 ← join_archive_queries (get_validator_unknown_reward_blocks db)
      (archive_get_validator_unknown_reward_blocks db)
    pure { relayBlocksProposed := m1, totalRelayBlocksProposed := m2,
           relayTotalRewards := m3, avgRelayerRewards := m4,
           unknownRewardsBlocks := m5, validatorBlocksProposed := m6,
           missedBlockProposals := m7, emptyBlockProposals := m8,
           totalValidatorRewards := m9, avgValidatorRewards := m10,
           valUnknownRewardBlocks := m11 }
  else
    some { relayBlocksProposed := get_relay_blocks_proposed db,
           totalRelayBlocksProposed := get_total_relay_blocks_proposed db,
           relayTotalRewards := get_relay_total_rewards db,
           avgRelayerRewards := get_avg_relay_rewards db,
           unknownRewardsBlocks := get_unknown_reward_blocks db,
           validatorBlocksProposed := get_validator_blocks_proposed db,
           missedBlockProposals := get_missed_block_proposals db,
           emptyBlockProposals := get_empty_block_proposals db,
           totalValidatorRewards := get_total_validator_rewards db,
           avgValidatorRewards := get_avg_validator_rewards db,
           valUnknownRewardBlocks := get_validator_unknown_reward_blocks db }

/-- Python `get_relayers_list`: the keys of the name-to-endpoint dict. -/
def get_relayers_list (db : DB) : List String :=
  (buildDict (db.relayers.map (fun r => (r.name, some r.endpoint)))).map
    (fun p => p.1)

/-- The backfill loop of `populate_data_obj` for one metric map: insert a
zero entry for each listed relayer name that the map lacks. -/
def backfillZero {V : Type} [Zero V] (d : Dict V) (names : List String) : Dict V :=
  names.foldl (fun d n =>
    if (d.find? (fun p => p.1 = n)).isSome then d else d ++ [(n, some 0)]) d

/-- One entry of the slots array of the data object (the COALESCE of the
proposer public key may still be NULL when the proposer is untracked and
no raw key was stored). -/
structure SlotView where
  slot : Int
  proposer : Option String
  relay : String
  missed : Bool
  empty : Bool
  deriving Repr, DecidableEq

/-- Insertion into a list of slot views sorted by slot number
(`ORDER BY s.number ASC`). -/
def insertSorted (s : SlotView) : List SlotView → List SlotView
  | [] => [s]
  | t :: ts => if s.slot ≤ t.slot then s :: t :: ts else t :: insertSorted s ts

/-- The data object built by `populate_data_obj`. -/
structure DataObj where
  last_slot : Int
  slots : List SlotView
  metrics : Metrics
  deriving Repr, DecidableEq

/-- The slots array of `populate_data_obj`: slots joined to `relayers`,
LEFT JOINed to `validators`, ordered by slot number. -/
def dataSlots (db : DB) : List SlotView :=
  (db.slots.filterMap (fun s =>
    (relayerOfSlot db s).map (fun r =>
      { slot := s.number,
        proposer := match s.proposer_pubkey with
          | some pk => some pk
          | none => (validatorOfSlot db s).map (fun v => v.public_key),
        relay := r.name, missed := s.missed, empty := s.empty }))).foldr
    insertSorted []

/-- Python `populate_data_obj`: the slots array, the last slot number and
the metrics, with zero entries backfilled into the eight relay-keyed
metric maps for every known relayer name. -/
def populate_data_obj (db : DB) : Option DataObj :=
  (get_metrics_from_db db).map (fun m =>
    let names := get_relayers_list db
    let views := dataSlots db
    { last_slot := ((views.getLast?).map (fun v => v.slot)).getD 0,
      slots := views,
      metrics := { m with
        relayBlocksProposed := backfillZero m.relayBlocksProposed names,
        totalRelayBlocksProposed := backfillZero m.totalRelayBlocksProposed names,
        relayTotalRewards := backfillZero m.relayTotalRewards names,
        avgRelayerRewards := backfillZero m.avgRelayerRewards names,
        unknownRewardsBlocks := backfillZero m.unknownRewardsBlocks names,
        totalValidatorRewards := backfillZero m.totalValidatorRewards names,
        avgValidatorRewards := backfillZero m.avgValidatorRewards names,
        valUnknownRewardBlocks := backfillZero m.valUnknownRewardBlocks names } })

end BlockMonitor

namespace BlockMonitor

/-! ### Ingestion -/

/-- Python `insert_new_slot`.  A reward of -1 is normalized to NULL; the
proposer is resolved best-effort and the relayer mandatorily (an
unresolvable relay name raises, leaving the database untouched); the
slot row is inserted with `INSERT OR IGNORE`, so an existing slot number
is a silent no-op. -/
def insert_new_slot (slot_number : Int) (proposer relayer : String)
    (missed empty : Bool) (reward : ℚ) (db : DB) : OpResult :=
  let rw : Option ℚ := if reward = -1 then none else some reward
  let proposer_id : Option Nat :=
    (db.validators.find? (fun v => v.public_key = proposer)).map (fun v => v.id)
  match (db.relayers.find? (fun r => r.name = relayer)).map (fun r => r.id) with
  | none => { ok := false, db := db }
  | some relay_id =>
    if db.slots.any (fun s => s.number = slot_number) then { ok := true, db := db }
    else
      match proposer_id with
      | none =>
        { ok := true, db := { db with slots := db.slots ++
            [{ number := slot_number, proposer_id := none,
               proposer_pubkey := some proposer, relay_id := relay_id,
               missed := missed, empty := empty, reward := rw }] } }
      | some pid =>
        { ok := true, db := { db with slots := db.slots ++
            [{ number := slot_number, proposer_id := some pid,
               proposer_pubkey := none, relay_id := relay_id,
               missed := missed, empty := empty, reward := rw }] } }

/-! ### Pruning -/

/-- Python `create_archive_db` guarded by `archive_exists`: create the two
(empty) archive tables when absent. -/
def ensureArchive (db : DB) : DB :=
  if archive_exists db then db else { db with archive := some ([], []) }

/-- SQL `SELECT MAX(number) FROM slots`: NULL on an empty table. -/
def maxSlotNumber : List SlotRow → Option Int
  | [] => none
  | s :: rest => some (rest.foldl (fun m t => max m t.number) s.number)

/-- The per-(validator, relay) delta record assembled by `prune_db` from
its four GROUP BY queries over the slots below the cutoff. -/
structure ValDelta where
  count : Option Int
  reward : Option ℚ
  missed : Option Int
  empty : Option Int
  unknown : Option Int
  deriving Repr, DecidableEq

/-- The pruned slots joined to `validators`, keyed by
(validator id, relay id) as in the GROUP BY of the four queries. -/
def prunedValSlots (db : DB) (cutoff : Int) : List ((Nat × Nat) × SlotRow) :=
  db.slots.filterMap (fun s =>
    if s.number < cutoff then
      (validatorOfSlot db s).map (fun v => ((v.id, s.relay_id), s))
    else none)

/-- The merged `result_dict` of the validator half of `prune_db`: count
and reward sum from the unfiltered grouping, missed / empty / unknown
counts present only when the corresponding filtered grouping produced the
group. -/
def valDeltas (db : DB) (cutoff : Int) : List ((Nat × Nat) × ValDelta) :=
  (groupPairs (prunedValSlots db cutoff)).map (fun kg =>
    (kg.1,
      { count := some (kg.2.length : Int),
        reward := sqlSumQ (kg.2.map (fun s => s.reward)),
        missed := posCount (kg.2.countP (fun s => s.missed)),
        empty := posCount (kg.2.countP (fun s => s.empty)),
        unknown := posCount (kg.2.countP (fun s => s.reward.isNone)) }))

/-- The `INSERT ... ON CONFLICT (validator_id, relay_id) DO UPDATE` upsert
into `archive_validator_slots` with COALESCE additive-merge semantics. -/
def upsertValArchive (rows : List ArchValidatorRow) (k : Nat × Nat)
    (d : ValDelta) : List ArchValidatorRow :=
  if rows.any (fun r => r.validator_id = k.1 && r.relay_id = k.2) then
    rows.map (fun r =>
      if r.validator_id = k.1 && r.relay_id = k.2 then
        { r with
          total_slots := some (r.total_slots.getD 0 + d.count.getD 0),
          total_rewards := some (r.total_rewards.getD 0 + d.reward.getD 0),
          total_missed := some (r.total_missed.getD 0 + d.missed.getD 0),
          total_empty := some (r.total_empty.getD 0 + d.empty.getD 0),
          total_unknown_reward :=
            some (r.total_unknown_reward.getD 0 + d.unknown.getD 0) }
      else r)
  else rows ++ [{ validator_id := k.1, relay_id := k.2,
                  total_slots := d.count, total_rewards := d.reward,
                  total_missed := d.missed, total_empty := d.empty,
                  total_unknown_reward := d.unknown }]

/-- The validator half of `prune_db`, up to and including its commit. -/
def pruneValidatorPass (cutoff : Int) (db : DB) : DB :=
  { db with
    archive := some (archRelRows db, (valDeltas db cutoff).foldl
      (fun rows kd => upsertValArchive rows kd.1 kd.2) (archValRows db)) }

/-- The per-relay delta record assembled by `prune_db` from its two
relay-level queries: count and reward sum over known-reward pruned slots
(absent when there are none), unknown count over NULL-reward pruned slots
(absent when there are none). -/
structure RelDelta where
  count : Option Int
  reward : Option ℚ
  unknown : Option Int
  deriving Repr, DecidableEq

/-- The delta record assembled for one relay's group of pruned slots:
count and reward sum over its known-reward slots (absent when there are
none), unknown count over its NULL-reward slots (absent when there are
none). -/
def relDeltaOf (g : List SlotRow) : RelDelta :=
  { count := if (g.filterMap (fun s => s.reward)).length > 0
      then some ((g.filterMap (fun s => s.reward)).length : Int) else none,
    reward := if (g.filterMap (fun s => s.reward)).length > 0
      then some (g.filterMap (fun s => s.reward)).sum else none,
    unknown := posCount (g.countP (fun s => s.reward.isNone)) }

/-- The merged relay-level `result_dict` of `prune_db`. -/
def relDeltas (db : DB) (cutoff : Int) : List (Nat × RelDelta) :=
  (((db.slots.filter (fun s => s.number < cutoff)).map
      (fun s => s.relay_id)).dedup).map (fun rid =>
    (rid, relDeltaOf ((db.slots.filter (fun s => s.number < cutoff)).filter
      (fun s => s.relay_id = rid))))

/-- The `INSERT ... ON CONFLICT(relay_id) DO UPDATE` upsert into
`archive_relayer_slots` with COALESCE additive-merge semantics. -/
def upsertRelArchive (rows : List ArchRelayerRow) (rid : Nat)
    (d : RelDelta) : List ArchRelayerRow :=
  if rows.any (fun r => r.relay_id = rid) then
    rows.map (fun r =>
      if r.relay_id = rid then
        { r with
          total_slots := some (r.total_slots.getD 0 + d.count.getD 0),
          total_rewards := some (r.total_rewards.getD 0 + d.reward.getD 0),
          total_unknown_slots :=
            some (r.total_unknown_slots.getD 0 + d.unknown.getD 0) }
      else r)
  else rows ++ [{ relay_id := rid, total_slots := d.count,
                  total_rewards := d.reward, total_unknown_slots := d.unknown }]

/-- The relayer half of `prune_db`, up to and including its commit. -/
def pruneRelayerPass (cutoff : Int) (db : DB) : DB :=
  { db with
    archive := some ((relDeltas db cutoff).foldl
      (fun rows kd => upsertRelArchive rows kd.1 kd.2) (archRelRows db),
      archValRows db) }

/-- The final `DELETE FROM slots WHERE number < cutoff` of `prune_db`. -/
def pruneDelete (cutoff : Int) (db : DB) : DB :=
  { db with slots := db.slots.filter (fun s => !(s.number < cutoff)) }

/-- Python `prune_db`.  On an empty slots table `MAX(number)` is NULL and
the subtraction raises a `TypeError` (`ok = false`); when nothing lies
below the cutoff the call returns early; otherwise the three commits run
in sequence: validator-rollup upserts, relayer-rollup upserts, delete. -/
def prune_db (last_slots : Int) (db : DB) : OpResult :=
  match maxSlotNumber (ensureArchive db).slots with
  | none => { ok := false, db := ensureArchive db }
  | some mx =>
    if ((ensureArchive db).slots.filter
        (fun s => s.number < mx - last_slots)).length < 1 then
      { ok := true, db := ensureArchive db }
    else
      { ok := true,
        db := pruneDelete (mx - last_slots) (pruneRelayerPass (mx - last_slots)
          (pruneValidatorPass (mx - last_slots) (ensureArchive db))) }

/-! ### Sync-committee ledger -/

/-- Python `create_sync_committee_table` guarded by
`sync_committee_table_exists`. -/
def ensureSyncTable (db : DB) : DB :=
  if db.sync.isSome then db else { db with sync := some [] }

/-- The index-resolution loop of `insert_sync_committee_performance`:
every validator index is looked up before any insert; the first index with
no matching validator row raises. -/
def resolveValIndexes (db : DB) : List (Int × Bool) → Option (List (Nat × Bool))
  | [] => some []
  | (idx, part) :: rest =>
    match db.validators.find? (fun v => v.val_index = some idx) with
    | none => none
    | some v => (resolveValIndexes db rest).map (fun tl => (v.id, part) :: tl)

/-- Python `insert_sync_committee_performance`: create the table if
absent, raise if the `val_index` column is missing, resolve every index,
then insert one row per validator with `INSERT OR IGNORE` on the
(slot, validator) unique pair. -/
def insert_sync_committee_performance (slot : Int)
    (validator_performance : List (Int × Bool)) (db : DB) : OpResult :=
  if !(ensureSyncTable db).has_val_index then
    { ok := false, db := ensureSyncTable db }
  else
    match resolveValIndexes (ensureSyncTable db) validator_performance with
    | none => { ok := false, db := ensureSyncTable db }
    | some resolved =>
      { ok := true,
        db := { ensureSyncTable db with
          sync := some (resolved.foldl (fun rows vp =>
            if rows.any (fun r => r.slot_number = slot && r.validator_id = vp.1)
            then rows
            else rows ++ [{ slot_number := slot, validator_id := vp.1,
                            participated := vp.2 }])
            ((ensureSyncTable db).sync.getD [])) } }

/-- Python `exists_sync_committee_performance_between_slots`. -/
def existsSyncBetween (start_slot end_slot : Int) (db : DB) : Bool :=
  (syncRows db).any (fun r =>
    start_slot ≤ r.slot_number && r.slot_number ≤ end_slot)

/-- The participated / missed count dict of
`get_sync_committee_performance_between_slots`: rows in the inclusive
range with the given participation flag, joined to `validators`, grouped
by `validator_id`, and displayed under the validator's public key. -/
def syncPerfDict (db : DB) (rows : List SyncRow) (flag : Bool)
    (start_slot end_slot : Int) : Dict Int :=
  let joined : List (Validator × SyncRow) :=
    (rows.filter (fun r => r.participated = flag &&
        start_slot ≤ r.slot_number && r.slot_number ≤ end_slot)).filterMap
      (fun r => (db.validators.find? (fun v => v.id = r.validator_id)).map
        (fun v => (v, r)))
  buildDict ((groupPairs joined).map
    (fun kg => (kg.1.public_key, some (kg.2.length : Int))))

/-- Python `get_sync_committee_performance_between_slots`: raises when
`start_slot > end_slot` (modelled as `none`); creates the table and
returns two empty dicts when it is absent; returns two empty dicts when
no row lies in the range; otherwise returns the participated and missed
count dicts. -/
def get_sync_committee_performance_between_slots (start_slot end_slot : Int)
    (db : DB) : Option ((Dict Int × Dict Int) × DB) :=
  if start_slot > end_slot then none
  else
    match db.sync with
    | none => some (([], []), { db with sync := some [] })
    | some rows =>
      if !existsSyncBetween start_slot end_slot db then some (([], []), db)
      else
        some ((syncPerfDict db rows true start_slot end_slot,
               syncPerfDict db rows false start_slot end_slot), db)

end BlockMonitor

namespace BlockMonitor

/-! ### Operation sequences

The no-double-counting and average claims quantify over arbitrary
sequences of ingestions and prunes, so we give the two mutating
operations a small trace semantics with a ghost record of every slot
actually ingested. -/

/-- One call to a mutating operation of the module. -/
inductive Op where
  | ins (slot_number : Int) (proposer relayer : String)
      (missed empty : Bool) (reward : ℚ)
  | prune (last_slots : Int)
  deriving Repr, DecidableEq

/-- The state after one call; a raised exception leaves the state the
call had written so far. -/
def applyOp : Op → DB → DB
  | .ins n p r m e rw, db => (insert_new_slot n p r m e rw db).db
  | .prune k, db => (prune_db k db).db

/-- The state after a sequence of calls. -/
def runDB : List Op → DB → DB
  | [], db => db
  | op :: ops, db => runDB ops (applyOp op db)

/-- Ghost record of one ingested slot: the relay name it was ingested
under and the fields that matter for the aggregate metrics. -/
structure IngestRec where
  relay : String
  missed : Bool
  empty : Bool
  reward : Option ℚ
  deriving Repr, DecidableEq

/-- The ghost record of a call: an insert that resolves its relay and
carries a fresh slot number ingests one slot; every other call ingests
nothing. -/
def ingestRec? : Op → DB → Option IngestRec
  | .ins n _ r m e rw, db =>
    if (db.relayers.find? (fun rl => rl.name = r)).isSome
        && !db.slots.any (fun s => s.number = n) then
      some { relay := r, missed := m, empty := e,
             reward := if rw = -1 then none else some rw }
    else none
  | .prune _, _ => none

/-- All slots ingested along a call sequence. -/
def ingestedRecs : List Op → DB → List IngestRec
  | [], _ => []
  | op :: ops, db => (ingestRec? op db).toList ++ ingestedRecs ops (applyOp op db)

/-- The number of distinct slots ever ingested for a relay name along a
call sequence. -/
def everZ (ops : List Op) (db : DB) (r : String) : Int :=
  ((ingestedRecs ops db).countP (fun rec => rec.relay = r) : Int)

/-- The number of rows currently in the slots table that join to a
relayer of the given name (the live contribution to
`TotalRelayBlocksProposed`). -/
def liveCountZ (db : DB) (r : String) : Int :=
  ((relayRows db).countP (fun p => p.1 = r) : Int)

/-- The archive contribution to `TotalRelayBlocksProposed` for a relay
name, reading NULL rollup fields as zero (COALESCE view; the query
itself NULL-poisons instead, which is what claim C1 turns on). -/
def archCountZ (db : DB) (r : String) : Int :=
  ((archRelJoin db).filterMap (fun p =>
    if p.1.name = r then
      some (p.2.total_slots.getD 0 + p.2.total_unknown_slots.getD 0)
    else none)).sum

/-- The combined `TotalRelayBlocksProposed` metric as the source computes
it: the live count dict joined with the archive rollup dict via
`join_archive_queries`. -/
def combinedTotalRelay (db : DB) : Option (Dict Int) :=
  join_archive_queries (get_total_relay_blocks_proposed db)
    (archive_get_total_relay_blocks_proposed db)

/-- Modelled from the spec: the single weighted mean the specification
prescribes for `AvgRelayerRewards` — qualifying slots on both the archive
and the live side are exactly those ever ingested with a known,
non-missed, non-empty reward, and the average is the sum of their rewards
over their count.  (Definition follows the spec's words, for comparison
with the source's `archive_get_avg_relay_rewards`.) -/
def specAvgRelayReward (recs : List IngestRec) (r : String) : Option ℚ :=
  match recs.filterMap (fun rec =>
      if rec.relay = r && !rec.missed && !rec.empty then rec.reward else none) with
  | [] => none
  | l => some (l.sum / l.length)

end BlockMonitor

namespace BlockMonitor

/-! ### Dictionary lemmas -/

theorem find?_eq_self_of_mem {κ : Type} [DecidableEq κ] {k : κ} {l : List κ}
    (h : k ∈ l) : l.find? (fun x => x = k) = some k := by
  induction l with
  | nil => cases h
  | cons a l ih =>
    rcases List.mem_cons.mp h with h | h
    · subst h; simp [List.find?]
    · by_cases ha : a = k
      · subst ha; simp [List.find?]
      · simpa [List.find?, ha] using ih h

theorem length_filterMap_eq_countP {κ ρ : Type} [DecidableEq κ]
    (rows : List (κ × ρ)) (k : κ) :
    (rows.filterMap (fun p => if p.1 = k then some p.2 else none)).length =
      rows.countP (fun p => p.1 = k) := by
  induction rows with
  | nil => rfl
  | cons a rows ih =>
    by_cases h : a.1 = k <;>
      simp [List.filterMap_cons, List.countP_cons, h, ih]

theorem foldl_dictUpsert_append {V : Type} (rows acc : Dict V)
    (h : ((acc ++ rows).map Prod.fst).Nodup) :
    rows.foldl (fun d kv => dictUpsert d kv.1 kv.2) acc = acc ++ rows := by
  induction rows generalizing acc with
  | nil => simp
  | cons kv rows ih =>
    have hdisj : (acc.map Prod.fst).Disjoint ((kv :: rows).map Prod.fst) := by
      have h' : ((acc.map Prod.fst) ++ ((kv :: rows).map Prod.fst)).Nodup := by
        simpa using h
      exact (List.nodup_append.mp h').2.2
    have hnotin : acc.find? (fun p => p.1 = kv.1) = none := by
      rw [List.find?_eq_none]
      intro p hp
      simp only [decide_eq_true_eq]
      intro hpk
      exact hdisj (by simpa [hpk] using List.mem_map_of_mem Prod.fst hp)
        (by simp)
    have hstep : dictUpsert acc kv.1 kv.2 = acc ++ [kv] := by
      simp [dictUpsert, hnotin]
    have hrec := ih (acc ++ [kv]) (by simpa using h)
    simp only [List.foldl_cons, hstep, hrec, List.append_assoc,
      List.singleton_append]

theorem buildDict_of_nodup {V : Type} (rows : Dict V)
    (h : (rows.map Prod.fst).Nodup) : buildDict rows = rows := by
  simpa using foldl_dictUpsert_append rows [] (by simpa using h)

end BlockMonitor

namespace BlockMonitor

theorem find?_keyed_map {V : Type} (keys : List String) (g : String → Option V)
    (k : String) :
    ((keys.map (fun x => (x, g x))).find? (fun p => p.1 = k)) =
      if k ∈ keys then some (k, g k) else none := by
  induction keys with
  | nil => simp
  | cons a keys ih =>
    by_cases h : a = k
    · subst h; simp [List.find?]
    · simp only [List.map_cons, List.find?]
      have : (decide (a = k)) = false := by simpa using h
      simp only [this]
      rw [ih]
      simp [List.mem_cons, h, Ne.symm h]

theorem dlookup_groupDict {ρ V : Type} (rows : List (String × ρ))
    (f : List ρ → Option V) (k : String) :
    dlookup (buildDict ((groupPairs rows).map (fun kg => (kg.1, f kg.2)))) k =
      if k ∈ rows.map Prod.fst then
        some (f (rows.filterMap (fun p => if p.1 = k then some p.2 else none)))
      else none := by
  have hentries : (groupPairs rows).map (fun kg => (kg.1, f kg.2)) =
      (rows.map Prod.fst).dedup.map (fun x =>
        (x, f (rows.filterMap (fun p => if p.1 = x then some p.2 else none)))) := by
    simp [groupPairs, List.map_map]
  have hkeys : (((rows.map Prod.fst).dedup.map (fun x =>
      (x, f (rows.filterMap (fun p => if p.1 = x then some p.2 else none))))).map
        Prod.fst).Nodup := by
    have hid : (((rows.map Prod.fst).dedup.map (fun x =>
        (x, f (rows.filterMap (fun p => if p.1 = x then some p.2 else none))))).map
          Prod.fst) = (rows.map Prod.fst).dedup := by
      rw [List.map_map]
      exact List.map_id' _
    rw [hid]
    exact (rows.map Prod.fst).nodup_dedup
  rw [hentries, buildDict_of_nodup _ hkeys, dlookup, find?_keyed_map]
  by_cases hmem : k ∈ rows.map Prod.fst
  · simp [hmem, List.mem_dedup]
  · simp [hmem, List.mem_dedup]

theorem dlookup_countDict (rows : List (String × SlotRow)) (k : String) :
    dlookup (countDict rows) k =
      if 0 < rows.countP (fun p => p.1 = k) then
        some (some ((rows.countP (fun p => p.1 = k) : Nat) : Int))
      else none := by
  rw [countDict, dlookup_groupDict rows
    (fun g => some ((g.length : Nat) : Int)) k]
  by_cases hmem : k ∈ rows.map Prod.fst
  · have hpos : 0 < rows.countP (fun p => p.1 = k) := by
      rcases List.mem_map.mp hmem with ⟨p, hp, hpk⟩
      exact List.countP_pos_iff.mpr ⟨p, hp, by simpa using hpk⟩
    simp [hmem, hpos, length_filterMap_eq_countP]
  · have hzero : rows.countP (fun p => p.1 = k) = 0 := by
      rw [List.countP_eq_zero]
      intro p hp
      simp only [decide_eq_true_eq]
      intro hpk
      exact hmem (by simpa [hpk] using List.mem_map_of_mem Prod.fst hp)
    simp [hmem, hzero]

end BlockMonitor

namespace BlockMonitor

theorem dlookup_cons {V : Type} (a : String) (v : Option V) (d : Dict V)
    (k : String) :
    dlookup ((a, v) :: d) k = if a = k then some v else dlookup d k := by
  by_cases h : a = k <;> simp [dlookup, List.find?, h]

theorem dlookup_append {V : Type} (d1 d2 : Dict V) (k : String) :
    dlookup (d1 ++ d2) k = (dlookup d1 k).or (dlookup d2 k) := by
  induction d1 with
  | nil => simp [dlookup]
  | cons a d1 ih =>
    rcases a with ⟨a, v⟩
    by_cases h : a = k <;> simp [dlookup_cons, h, ih]

theorem dlookup_mapReplace_ne {V : Type} (d : Dict V) (k0 k : String)
    (v : Option V) (h : k0 ≠ k) :
    dlookup (d.map (fun p => if p.1 = k0 then (p.1, v) else p)) k = dlookup d k := by
  induction d with
  | nil => rfl
  | cons a d ih =>
    rcases a with ⟨a, w⟩
    rw [List.map_cons]
    by_cases ha0 : a = k0
    · have hhead : (if (a, w).1 = k0 then ((a, w).1, v) else (a, w)) = (a, v) := by
        simp [ha0]
      have hak : a ≠ k := by rw [ha0]; exact h
      rw [hhead, dlookup_cons, dlookup_cons, if_neg hak, if_neg hak, ih]
    · have hhead : (if (a, w).1 = k0 then ((a, w).1, v) else (a, w)) = (a, w) := by
        simp [ha0]
      rw [hhead, dlookup_cons, dlookup_cons]
      by_cases hak : a = k
      · rw [if_pos hak, if_pos hak]
      · rw [if_neg hak, if_neg hak, ih]

theorem dlookup_mapReplace_eq {V : Type} (d : Dict V) (k0 : String)
    (v : Option V) (h : (d.find? (fun p => p.1 = k0)).isSome) :
    dlookup (d.map (fun p => if p.1 = k0 then (p.1, v) else p)) k0 = some v := by
  induction d with
  | nil => simp [List.find?] at h
  | cons a d ih =>
    rcases a with ⟨a, w⟩
    rw [List.map_cons]
    by_cases ha0 : a = k0
    · have hhead : (if (a, w).1 = k0 then ((a, w).1, v) else (a, w)) = (a, v) := by
        simp [ha0]
      rw [hhead, dlookup_cons, if_pos ha0]
    · have hhead : (if (a, w).1 = k0 then ((a, w).1, v) else (a, w)) = (a, w) := by
        simp [ha0]
      have htail : (d.find? (fun p => p.1 = k0)).isSome := by
        simpa [List.find?, show (decide (a = k0)) = false by simpa using ha0]
          using h
      rw [hhead, dlookup_cons, if_neg ha0, ih htail]

theorem dlookup_eq_none_iff_find? {V : Type} (d : Dict V) (k : String) :
    dlookup d k = none ↔ d.find? (fun p => p.1 = k) = none := by
  unfold dlookup
  cases d.find? (fun p => p.1 = k) <;> simp

/-- The `avg = True` variant of `join_archive_queries` never raises, and
a key present in the accumulator (the archive dict) keeps its archive
value while other keys take their first value from the regular dict. -/
theorem join_avg_fold {V : Type} [Add V] (reg : Dict V) :
    ∀ acc : Dict V, ∃ d, List.foldlM (joinStep true) acc reg = some d ∧
      ∀ k, dlookup d k = (dlookup acc k).or (dlookup reg k) := by
  induction reg with
  | nil =>
    intro acc
    exact ⟨acc, rfl, fun k => by cases dlookup acc k <;> simp [dlookup]⟩
  | cons kv rest ih =>
    intro acc
    rcases kv with ⟨k0, v0⟩
    cases hfind : acc.find? (fun p => p.1 = k0) with
    | some hit =>
      rcases ih acc with ⟨d, hd, hlook⟩
      refine ⟨d, ?_, ?_⟩
      · simpa [List.foldlM, joinStep, hfind] using hd
      · intro k
        rw [hlook k, dlookup_cons]
        by_cases hk : k0 = k
        · subst hk
          have : dlookup acc k0 = some hit.2 := by simp [dlookup, hfind]
          simp [this]
        · simp [hk]
    | none =>
      rcases ih (acc ++ [(k0, v0)]) with ⟨d, hd, hlook⟩
      refine ⟨d, ?_, ?_⟩
      · simpa [List.foldlM, joinStep, hfind] using hd
      · intro k
        rw [hlook k, dlookup_append, dlookup_cons]
        have hacc : dlookup acc k0 = none := by simp [dlookup, hfind]
        by_cases hk : k0 = k
        · subst hk
          simp [hacc, dlookup_cons]
        · simp only [dlookup_cons, if_neg hk]
          cases dlookup acc k <;> simp [dlookup]

end BlockMonitor

namespace BlockMonitor

/-- The additive variant of `join_archive_queries` succeeds when no key
present on both sides carries a NULL on either side, and then combines
lookups: archive-only keys keep the archive value, regular-only keys keep
the regular value, keys on both sides add. -/
theorem join_add_fold {V : Type} [Add V] (reg : Dict V) :
    ∀ acc : Dict V, ((reg.map Prod.fst).Nodup) →
    (∀ kv ∈ reg, ∀ w, dlookup acc kv.1 = some w → (w.isSome ∧ kv.2.isSome)) →
    ∃ d, List.foldlM (joinStep false) acc reg = some d ∧
      (∀ k, dlookup acc k = none → dlookup d k = dlookup reg k) ∧
      (∀ k, dlookup reg k = none → dlookup d k = dlookup acc k) ∧
      (∀ k a b, dlookup acc k = some (some a) → dlookup reg k = some (some b) →
        dlookup d k = some (some (a + b))) := by
  induction reg with
  | nil =>
    intro acc _ _
    refine ⟨acc, rfl, ?_, ?_, ?_⟩
    · intro k h; rw [h]; rfl
    · intro k _; rfl
    · intro k a b _ hr; simp [dlookup] at hr
  | cons kv rest ih =>
    intro acc hnodup hcompat
    rcases kv with ⟨k0, v0⟩
    have hnodup' : (rest.map Prod.fst).Nodup := (List.nodup_cons.mp hnodup).2
    have hk0notin : k0 ∉ rest.map Prod.fst := (List.nodup_cons.mp hnodup).1
    have hrest_none : dlookup rest k0 = none := by
      rw [dlookup_eq_none_iff_find?, List.find?_eq_none]
      intro p hp
      simp only [decide_eq_true_eq]
      intro hpk
      exact hk0notin (by simpa [hpk] using List.mem_map_of_mem Prod.fst hp)
    cases hfind : acc.find? (fun p => p.1 = k0) with
    | none =>
      have hacc0 : dlookup acc k0 = none := by simp [dlookup, hfind]
      have hcompat' : ∀ kv ∈ rest, ∀ w,
          dlookup (acc ++ [(k0, v0)]) kv.1 = some w → (w.isSome ∧ kv.2.isSome) := by
        intro kv' hkv' w hw
        rw [dlookup_append] at hw
        cases hacc' : dlookup acc kv'.1 with
        | some w' =>
          rw [hacc'] at hw
          have hww : w' = w := by simpa [Option.or] using hw
          exact hww ▸ hcompat kv' (List.mem_cons_of_mem _ hkv') w' hacc'
        | none =>
          rw [hacc'] at hw
          simp only [Option.none_or, dlookup_cons] at hw
          have : k0 ≠ kv'.1 := by
            intro heq
            exact hk0notin (by simpa [heq] using
              List.mem_map_of_mem Prod.fst hkv')
          rw [if_neg this] at hw
          simp [dlookup] at hw
      rcases ih (acc ++ [(k0, v0)]) hnodup' hcompat' with ⟨d, hd, h1, h2, h3⟩
      refine ⟨d, by simpa [List.foldlM, joinStep, hfind] using hd, ?_, ?_, ?_⟩
      · intro k hk
        by_cases hke : k0 = k
        · subst hke
          have := h2 k0 hrest_none
          rw [dlookup_append, hacc0, dlookup_cons, if_pos rfl] at this
          rw [this, dlookup_cons, if_pos rfl]
          simp
        · have hacck : dlookup (acc ++ [(k0, v0)]) k = none := by
            rw [dlookup_append, hk, dlookup_cons, if_neg hke]
            simp [dlookup]
          rw [h1 k hacck, dlookup_cons, if_neg hke]
      · intro k hk
        rw [dlookup_cons] at hk
        by_cases hke : k0 = k
        · rw [if_pos hke] at hk; cases hk
        · rw [if_neg hke] at hk
          rw [h2 k hk, dlookup_append, dlookup_cons, if_neg hke]
          cases dlookup acc k <;> simp [dlookup]
      · intro k a b ha hb
        rw [dlookup_cons] at hb
        by_cases hke : k0 = k
        · rw [← hke] at ha
          rw [hacc0] at ha; cases ha
        · rw [if_neg hke] at hb
          have hacck : dlookup (acc ++ [(k0, v0)]) k = some (some a) := by
            rw [dlookup_append, ha]; simp
          exact h3 k a b hacck hb
    | some hit =>
      have hacck0 : dlookup acc k0 = some hit.2 := by simp [dlookup, hfind]
      rcases hcompat (k0, v0) (List.mem_cons_self _ _) hit.2 hacck0 with ⟨hw, hv⟩
      rcases Option.isSome_iff_exists.mp hw with ⟨a0, ha0⟩
      rcases Option.isSome_iff_exists.mp hv with ⟨b0, hb0⟩
      have hb0' : v0 = some b0 := hb0
      have hstep : joinStep false acc (k0, v0) =
          some (acc.map (fun p => if p.1 = k0 then (p.1, some (a0 + b0)) else p)) := by
        simp [joinStep, hfind, ha0, hb0']
      set acc2 := acc.map (fun p => if p.1 = k0 then (p.1, some (a0 + b0)) else p)
        with hacc2
      have hacc2k0 : dlookup acc2 k0 = some (some (a0 + b0)) :=
        dlookup_mapReplace_eq acc k0 (some (a0 + b0)) (by simp [hfind])
      have hacc2ne : ∀ k, k0 ≠ k → dlookup acc2 k = dlookup acc k := by
        intro k hke
        exact dlookup_mapReplace_ne acc k0 k (some (a0 + b0)) hke
      have hcompat' : ∀ kv ∈ rest, ∀ w,
          dlookup acc2 kv.1 = some w → (w.isSome ∧ kv.2.isSome) := by
        intro kv' hkv' w hw
        have hne : k0 ≠ kv'.1 := by
          intro heq
          exact hk0notin (by simpa [heq] using List.mem_map_of_mem Prod.fst hkv')
        rw [hacc2ne kv'.1 hne] at hw
        exact hcompat kv' (List.mem_cons_of_mem _ hkv') w hw
      rcases ih acc2 hnodup' hcompat' with ⟨d, hd, h1, h2, h3⟩
      refine ⟨d, by simpa [List.foldlM, hstep] using hd, ?_, ?_, ?_⟩
      · intro k hk
        by_cases hke : k0 = k
        · rw [← hke, hacck0] at hk; cases hk
        · have : dlookup acc2 k = none := by rw [hacc2ne k hke]; exact hk
          rw [h1 k this, dlookup_cons, if_neg hke]
      · intro k hk
        rw [dlookup_cons] at hk
        by_cases hke : k0 = k
        · rw [if_pos hke] at hk; cases hk
        · rw [if_neg hke] at hk
          rw [h2 k hk, hacc2ne k hke]
      · intro k a b ha hb
        rw [dlookup_cons] at hb
        by_cases hke : k0 = k
        · subst hke
          rw [if_pos rfl] at hb
          rw [hacck0, ha0] at ha
          simp only [Option.some.injEq] at ha hb
          rw [hb0'] at hb
          simp only [Option.some.injEq] at hb
          have := h2 k0 hrest_none
          rw [this, hacc2k0, ← ha, ← hb]
        · rw [if_neg hke] at hb
          have ha2 : dlookup acc2 k = some (some a) := by
            rw [hacc2ne k hke]; exact ha
          exact h3 k a b ha2 hb

end BlockMonitor

namespace BlockMonitor

/-! ### Prune structure lemmas -/

theorem ensureArchive_slots (db : DB) : (ensureArchive db).slots = db.slots := by
  unfold ensureArchive; split <;> rfl

theorem ensureArchive_validators (db : DB) :
    (ensureArchive db).validators = db.validators := by
  unfold ensureArchive; split <;> rfl

theorem ensureArchive_relayers (db : DB) :
    (ensureArchive db).relayers = db.relayers := by
  unfold ensureArchive; split <;> rfl

theorem ensureArchive_sync (db : DB) : (ensureArchive db).sync = db.sync := by
  unfold ensureArchive; split <;> rfl

theorem ensureArchive_archRel (db : DB) :
    archRelRows (ensureArchive db) = archRelRows db := by
  unfold ensureArchive archive_exists
  cases h : db.archive <;> simp [archRelRows, h]

theorem ensureArchive_archVal (db : DB) :
    archValRows (ensureArchive db) = archValRows db := by
  unfold ensureArchive archive_exists
  cases h : db.archive <;> simp [archValRows, h]

theorem ensureArchive_of_isSome (db : DB) (h : db.archive.isSome) :
    ensureArchive db = db := by
  unfold ensureArchive archive_exists
  simp [h]

theorem ensureArchive_isSome (db : DB) : (ensureArchive db).archive.isSome := by
  unfold ensureArchive archive_exists
  cases h : db.archive <;> simp [h]

theorem pruneValidatorPass_slots (c : Int) (db : DB) :
    (pruneValidatorPass c db).slots = db.slots := rfl

theorem pruneRelayerPass_slots (c : Int) (db : DB) :
    (pruneRelayerPass c db).slots = db.slots := rfl

theorem pruneDelete_slots (c : Int) (db : DB) :
    (pruneDelete c db).slots = db.slots.filter (fun s => !(s.number < c)) := rfl

theorem pruneValidatorPass_archive_isSome (c : Int) (db : DB) :
    (pruneValidatorPass c db).archive.isSome := rfl

theorem pruneRelayerPass_archive_isSome (c : Int) (db : DB) :
    (pruneRelayerPass c db).archive.isSome := rfl

theorem pruneDelete_archive (c : Int) (db : DB) :
    (pruneDelete c db).archive = db.archive := rfl

/-! ### Lemmas about `SELECT MAX(number)` -/

theorem foldl_max_le_acc (l : List SlotRow) :
    ∀ acc : Int, acc ≤ l.foldl (fun m t => max m t.number) acc := by
  induction l with
  | nil => intro acc; exact le_refl _
  | cons t rest ih =>
    intro acc
    exact le_trans (le_max_left acc t.number) (ih (max acc t.number))

theorem foldl_max_mem_le (l : List SlotRow) (s : SlotRow) (hs : s ∈ l) :
    ∀ acc : Int, s.number ≤ l.foldl (fun m t => max m t.number) acc := by
  induction l with
  | nil => cases hs
  | cons t rest ih =>
    intro acc
    rcases List.mem_cons.mp hs with h | h
    · subst h
      exact le_trans (le_max_right acc s.number) (foldl_max_le_acc rest _)
    · rw [List.foldl_cons]
      exact ih h (max acc t.number)

theorem foldl_max_attained (l : List SlotRow) :
    ∀ acc : Int, l.foldl (fun m t => max m t.number) acc = acc ∨
      ∃ s ∈ l, l.foldl (fun m t => max m t.number) acc = s.number := by
  induction l with
  | nil => intro acc; exact Or.inl rfl
  | cons t rest ih =>
    intro acc
    rcases ih (max acc t.number) with h | ⟨s, hs, h⟩
    · rcases max_choice acc t.number with hm | hm
      · exact Or.inl (by rw [List.foldl_cons, h, hm])
      · exact Or.inr ⟨t, List.mem_cons_self _ _, by rw [List.foldl_cons, h, hm]⟩
    · exact Or.inr ⟨s, List.mem_cons_of_mem _ hs, by rw [List.foldl_cons, h]⟩

theorem le_maxSlotNumber (l : List SlotRow) (m : Int)
    (h : maxSlotNumber l = some m) (s : SlotRow) (hs : s ∈ l) : s.number ≤ m := by
  cases l with
  | nil => cases h
  | cons t rest =>
    simp only [maxSlotNumber, Option.some.injEq] at h
    subst h
    rcases List.mem_cons.mp hs with hh | hh
    · subst hh; exact foldl_max_le_acc rest _
    · exact foldl_max_mem_le rest s hh _

theorem maxSlotNumber_mem (l : List SlotRow) (m : Int)
    (h : maxSlotNumber l = some m) : ∃ s ∈ l, s.number = m := by
  cases l with
  | nil => cases h
  | cons t rest =>
    simp only [maxSlotNumber, Option.some.injEq] at h
    rcases foldl_max_attained rest t.number with hh | ⟨s, hs, hh⟩
    · exact ⟨t, List.mem_cons_self _ _, by rw [← h, hh]⟩
    · exact ⟨s, List.mem_cons_of_mem _ hs, by rw [← h, hh]⟩

end BlockMonitor

namespace BlockMonitor

/-! ### Concrete databases used by counterexamples and witnesses -/

/-- A relayer row used by the concrete scenarios. -/
def relW : Relayer := { id := 1, name := "R", endpoint := "e1" }

/-- A tracked validator used by the concrete scenarios. -/
def valW : Validator := { id := 1, public_key := "v1", val_index := none }

/-- A database with one relayer and an empty slots table. -/
def dbNoSlots : DB :=
  { validators := [], relayers := [relW], slots := [], archive := none,
    sync := none, has_val_index := false }

/-- C5 counterexample.  On an empty slots table `SELECT MAX(number)` is
NULL, so `prune_db` raises a `TypeError` computing the cutoff instead of
completing as a no-op, refuting the claim that the call completes without
raising whenever the slots table is empty. -/
theorem claim5_counterexample : (prune_db 2 dbNoSlots).ok = false := rfl

/-- C5 (amended): when the slots table is nonempty and no slot lies below
the cutoff `MAX(number) - keep_last_n`, `prune_db` completes without
raising and leaves the slots table, the rollup contents and the
sync-committee table unchanged (creating empty archive tables when they
did not yet exist; an existing archive makes the call a strict no-op). -/
theorem claim5_prune_noop (n : Int) (db : DB) (mx : Int)
    (hmx : maxSlotNumber db.slots = some mx)
    (hnone : ∀ s ∈ db.slots, ¬ s.number < mx - n) :
    prune_db n db = { ok := true, db := ensureArchive db } ∧
    (prune_db n db).db.slots = db.slots ∧
    archRelRows (prune_db n db).db = archRelRows db ∧
    archValRows (prune_db n db).db = archValRows db ∧
    (prune_db n db).db.sync = db.sync ∧
    (db.archive.isSome → (prune_db n db).db = db) := by
  have hfilter : db.slots.filter (fun s => s.number < mx - n) = [] := by
    rw [List.filter_eq_nil_iff]
    intro s hs
    simpa using hnone s hs
  have hmain : prune_db n db = { ok := true, db := ensureArchive db } := by
    unfold prune_db
    simp only [ensureArchive_slots, hmx, hfilter, List.length_nil]
    simp
  refine ⟨hmain, ?_, ?_, ?_, ?_, ?_⟩
  · rw [hmain]; exact ensureArchive_slots db
  · rw [hmain]; exact ensureArchive_archRel db
  · rw [hmain]; exact ensureArchive_archVal db
  · rw [hmain]; exact ensureArchive_sync db
  · intro hsome
    rw [hmain]
    exact ensureArchive_of_isSome db hsome

/-- A database with a single slot, used to witness the no-op prune. -/
def dbOneSlot : DB :=
  { validators := [], relayers := [relW],
    slots := [{ number := 5, proposer_id := none, proposer_pubkey := some "p",
                relay_id := 1, missed := false, empty := false,
                reward := some 1 }],
    archive := none, sync := none, has_val_index := false }

/-- C5 witness: the amended no-op theorem applied to a one-slot database
with `keep_last_n = 2` (cutoff 3, nothing below it). -/
theorem claim5_witness :
    prune_db 2 dbOneSlot = { ok := true, db := ensureArchive dbOneSlot } ∧
    (prune_db 2 dbOneSlot).db.slots = dbOneSlot.slots ∧
    archRelRows (prune_db 2 dbOneSlot).db = archRelRows dbOneSlot ∧
    archValRows (prune_db 2 dbOneSlot).db = archValRows dbOneSlot ∧
    (prune_db 2 dbOneSlot).db.sync = dbOneSlot.sync ∧
    (dbOneSlot.archive.isSome → (prune_db 2 dbOneSlot).db = dbOneSlot) :=
  claim5_prune_noop 2 dbOneSlot 5 rfl (by decide)

/-- C6: prune is idempotent — if a `prune_db n` call completed normally,
running `prune_db n` again changes nothing: the second call's resulting
state (slots table and archive rollups included) is exactly the state the
first call left. -/
theorem claim6_prune_idempotent (n : Int) (db db2 : DB)
    (h : prune_db n db = { ok := true, db := db2 }) :
    (prune_db n db2).db = db2 := by
  unfold prune_db at h
  split at h
  · simp at h
  · next mx hmx =>
    split at h
    · next hcond =>
      have hdb2 : db2 = ensureArchive db := by
        injection h with h1 h2
        exact h2.symm
      have hsome : db2.archive.isSome := by
        rw [hdb2]; exact ensureArchive_isSome db
      unfold prune_db
      rw [ensureArchive_of_isSome db2 hsome]
      split
      · rfl
      · next mx2 hmx2 =>
        have hmxeq : mx = mx2 := by
          rw [hdb2, hmx] at hmx2
          injection hmx2
        subst hmxeq
        have hcond2 : (db2.slots.filter (fun s => s.number < mx - n)).length < 1 := by
          rw [hdb2]; exact hcond
        rw [if_pos hcond2]
    · next hcond =>
      have hdb2 : db2 = pruneDelete (mx - n) (pruneRelayerPass (mx - n)
          (pruneValidatorPass (mx - n) (ensureArchive db))) := by
        injection h with h1 h2
        exact h2.symm
      have hsome : db2.archive.isSome := by rw [hdb2]; rfl
      have hslots2 : db2.slots =
          (ensureArchive db).slots.filter (fun s => !(s.number < mx - n)) := by
        rw [hdb2]; rfl
      unfold prune_db
      rw [ensureArchive_of_isSome db2 hsome]
      split
      · rfl
      · next mx2 hmx2 =>
        have hmem2 : ∀ s ∈ db2.slots, ¬ s.number < mx - n := by
          intro s hs
          rw [hslots2] at hs
          have := (List.mem_filter.mp hs).2
          simpa using this
        have hmx2le : mx2 ≤ mx := by
          rcases maxSlotNumber_mem _ _ hmx2 with ⟨s, hs, hsn⟩
          have hsub : s ∈ (ensureArchive db).slots := by
            rw [hslots2] at hs
            exact (List.mem_filter.mp hs).1
          rw [← hsn]
          exact le_maxSlotNumber _ _ hmx s hsub
        have hfe : db2.slots.filter (fun s => s.number < mx2 - n) = [] := by
          rw [List.filter_eq_nil_iff]
          intro s hs
          have h1 := hmem2 s hs
          simp only [decide_eq_true_eq]
          omega
        rw [hfe]
        simp

/-- A tracked-validator slot with a known reward. -/
def slotR1 : SlotRow :=
  { number := 1, proposer_id := some 1, proposer_pubkey := none,
    relay_id := 1, missed := false, empty := false, reward := some 2 }

/-- A second tracked-validator slot with a known reward. -/
def slotR2 : SlotRow :=
  { number := 2, proposer_id := some 1, proposer_pubkey := none,
    relay_id := 1, missed := false, empty := false, reward := some 3 }

/-- A two-slot database over one validator and one relayer. -/
def dbC6 : DB :=
  { validators := [valW], relayers := [relW], slots := [slotR1, slotR2],
    archive := none, sync := none, has_val_index := false }

/-- C6 witness: the idempotence theorem applied to a concrete two-slot
database whose first prune archives one slot. -/
theorem claim6_witness :
    (prune_db 1 ((prune_db 1 dbC6).db)).db = (prune_db 1 dbC6).db :=
  claim6_prune_idempotent 1 dbC6 ((prune_db 1 dbC6).db) (by decide)

end BlockMonitor

namespace BlockMonitor

/-- C7: `insert_new_slot` raises if and only if the given relayer name
has no row in the relayers table; the error is surfaced as a raised
exception (`ok = false`), and in that case no slot row is inserted — the
whole database, slots table included, is left unchanged. -/
theorem claim7_insert_unknown_relayer (n : Int) (proposer relayer : String)
    (missed empty : Bool) (reward : ℚ) (db : DB) :
    ((insert_new_slot n proposer relayer missed empty reward db).ok = false ↔
      db.relayers.find? (fun r => r.name = relayer) = none) ∧
    (db.relayers.find? (fun r => r.name = relayer) = none →
      (insert_new_slot n proposer relayer missed empty reward db).db = db) := by
  cases hfind : db.relayers.find? (fun r => r.name = relayer) with
  | none =>
    have hres : insert_new_slot n proposer relayer missed empty reward db =
        { ok := false, db := db } := by
      simp [insert_new_slot, hfind]
    simp [hres]
  | some rel =>
    have hok : (insert_new_slot n proposer relayer missed empty reward db).ok =
        true := by
      simp only [insert_new_slot, hfind, Option.map_some']
      by_cases hdup : db.slots.any (fun s => s.number = n)
      · simp [hdup]
      · simp only [hdup, Bool.false_eq_true, if_false]
        cases (db.validators.find? (fun v => v.public_key = proposer)).map
          (fun v => v.id) <;> rfl
    constructor
    · rw [hok]
      simp
    · intro habs
      cases habs

/-- C7 witness: inserting a slot against a database whose relayer table
lacks the requested name raises and leaves the database unchanged. -/
theorem claim7_witness :
    (insert_new_slot 1 "p" "X" false false 5 dbNoSlots).ok = false ∧
    (insert_new_slot 1 "p" "X" false false 5 dbNoSlots).db = dbNoSlots :=
  ⟨(claim7_insert_unknown_relayer 1 "p" "X" false false 5 dbNoSlots).1.mpr
      (by decide),
    (claim7_insert_unknown_relayer 1 "p" "X" false false 5 dbNoSlots).2
      (by decide)⟩

/-- The partially committed state of a crashed prune: the validator
rollup commit succeeded, the relayer rollup commit and the deletion never
ran. -/
def c2crash : DB := pruneValidatorPass 2 (ensureArchive dbC6)

/-- C2: `prune_db` is not atomic.  Its read-aggregate-merge-delete
sequence commits in three separate steps; an error after the first commit
(validator rollups written) leaves the rollups updated while the pruned
slots are still in the slots table — not the pre-call state the claim
requires — and retrying the same prune double-counts the slot: only one
slot ever lay below the cutoff, yet after the retry the validator rollup
records total_slots = 2 (two copies of slot 1). -/
theorem claim2_prune_not_atomic :
    c2crash.slots = dbC6.slots ∧
    archValRows c2crash ≠ archValRows dbC6 ∧
    (dbC6.slots.filter (fun s => s.number < 2)).length = 1 ∧
    (archValRows ((prune_db 0 c2crash).db)).map
        (fun a => (a.validator_id, a.relay_id, a.total_slots)) =
      [(1, 1, some 2)] := by
  refine ⟨rfl, ?_, rfl, ?_⟩
  · decide
  · decide

end BlockMonitor

namespace BlockMonitor

/-! ### Sync-committee lemmas -/

theorem ensureSyncTable_validators (db : DB) :
    (ensureSyncTable db).validators = db.validators := by
  unfold ensureSyncTable; split <;> rfl

theorem ensureSyncTable_has_val_index (db : DB) :
    (ensureSyncTable db).has_val_index = db.has_val_index := by
  unfold ensureSyncTable; split <;> rfl

theorem ensureSyncTable_syncRows (db : DB) :
    syncRows (ensureSyncTable db) = syncRows db := by
  unfold ensureSyncTable
  cases h : db.sync <;> simp [h, syncRows]

theorem ensureSyncTable_of_isSome (db : DB) (h : db.sync.isSome) :
    ensureSyncTable db = db := by
  unfold ensureSyncTable
  simp [h]

theorem resolveValIndexes_congr (d1 d2 : DB) (h : d1.validators = d2.validators)
    (l : List (Int × Bool)) : resolveValIndexes d1 l = resolveValIndexes d2 l := by
  induction l with
  | nil => rfl
  | cons ip rest ih =>
    rcases ip with ⟨idx, part⟩
    simp only [resolveValIndexes, h, ih]

theorem resolveValIndexes_none_iff (db : DB) (l : List (Int × Bool)) :
    resolveValIndexes db l = none ↔
      ∃ ip ∈ l, db.validators.find? (fun v => v.val_index = some ip.1) = none := by
  induction l with
  | nil => simp [resolveValIndexes]
  | cons ip rest ih =>
    rcases ip with ⟨idx, part⟩
    cases hfind : db.validators.find? (fun v => v.val_index = some idx) with
    | none =>
      simp only [resolveValIndexes, hfind]
      constructor
      · intro _
        exact ⟨(idx, part), List.mem_cons_self _ _, hfind⟩
      · intro _; trivial
    | some v =>
      simp only [resolveValIndexes, hfind]
      constructor
      · intro hmap
        rcases ih.mp (by
          cases hr : resolveValIndexes db rest with
          | none => rfl
          | some tl => rw [hr] at hmap; cases hmap) with ⟨ip, hip, hipn⟩
        exact ⟨ip, List.mem_cons_of_mem _ hip, hipn⟩
      · intro hex
        rcases hex with ⟨ip, hip, hipn⟩
        rcases List.mem_cons.mp hip with hh | hh
        · rw [hh] at hipn
          rw [hipn] at hfind
          cases hfind
        · rw [ih.mpr ⟨ip, hh, hipn⟩]
          rfl

/-- C10: `insert_sync_committee_performance` resolves every validator
index before executing any insert.  Given the `val_index` column exists,
the call raises exactly when some index in the input has no matching
validator row, and a raising call writes no participation row: the
sync-committee rows are unchanged (the whole state is unchanged whenever
the table already existed). -/
theorem claim10_sync_insert_resolves_first (slot : Int)
    (perf : List (Int × Bool)) (db : DB) (hcol : db.has_val_index = true) :
    ((insert_sync_committee_performance slot perf db).ok = false ↔
      ∃ ip ∈ perf, db.validators.find? (fun v => v.val_index = some ip.1) = none) ∧
    ((insert_sync_committee_performance slot perf db).ok = false →
      syncRows (insert_sync_committee_performance slot perf db).db = syncRows db ∧
      (db.sync.isSome → (insert_sync_committee_performance slot perf db).db = db)) := by
  have hcol1 : (!(ensureSyncTable db).has_val_index) = false := by
    rw [ensureSyncTable_has_val_index, hcol]
    rfl
  have hcongr : resolveValIndexes (ensureSyncTable db) perf =
      resolveValIndexes db perf :=
    resolveValIndexes_congr _ _ (ensureSyncTable_validators db) perf
  unfold insert_sync_committee_performance
  rw [hcol1]
  simp only [Bool.false_eq_true, if_false]
  cases hres : resolveValIndexes (ensureSyncTable db) perf with
  | none =>
    have hnone : resolveValIndexes db perf = none := by rw [← hcongr]; exact hres
    constructor
    · simp only [true_iff]
      exact (resolveValIndexes_none_iff db perf).mp hnone
    · intro _
      exact ⟨ensureSyncTable_syncRows db, fun hs => ensureSyncTable_of_isSome db hs⟩
  | some resolved =>
    have hsome : ¬ resolveValIndexes db perf = none := by
      rw [← hcongr, hres]
      intro hh; cases hh
    constructor
    · constructor
      · intro habs; cases habs
      · intro hex
        exact absurd ((resolveValIndexes_none_iff db perf).mpr hex) hsome
    · intro habs
      cases habs

/-- A database with one indexed validator and an existing sync table,
used by the C10 witness. -/
def dbSyncW : DB :=
  { validators := [{ id := 1, public_key := "v1", val_index := some 7 }],
    relayers := [], slots := [], archive := none,
    sync := some [{ slot_number := 1, validator_id := 1, participated := true }],
    has_val_index := true }

/-- C10 witness: inserting performance for an unknown validator index
raises and leaves both the sync-committee rows and the whole state
unchanged. -/
theorem claim10_witness :
    (insert_sync_committee_performance 2 [(9, true)] dbSyncW).ok = false ∧
    syncRows (insert_sync_committee_performance 2 [(9, true)] dbSyncW).db =
      syncRows dbSyncW ∧
    (insert_sync_committee_performance 2 [(9, true)] dbSyncW).db = dbSyncW := by
  have h := claim10_sync_insert_resolves_first 2 [(9, true)] dbSyncW rfl
  have hok : (insert_sync_committee_performance 2 [(9, true)] dbSyncW).ok =
      false := h.1.mpr ⟨(9, true), List.mem_cons_self _ _, by decide⟩
  have h2 := h.2 hok
  exact ⟨hok, h2.1, h2.2 rfl⟩

end BlockMonitor

namespace BlockMonitor

theorem countP_filterMap_opt {α β : Type} (f : α → Option β) (p : β → Bool)
    (l : List α) :
    (l.filterMap f).countP p = l.countP (fun x => ((f x).map p).getD false) := by
  induction l with
  | nil => rfl
  | cons x l ih =>
    cases hf : f x with
    | none =>
      simp only [List.filterMap_cons, hf, List.countP_cons, ih, Option.map_none',
        Option.getD_none, Bool.false_eq_true, if_false, Nat.add_zero]
    | some y =>
      by_cases hp : p y <;>
        simp [List.filterMap_cons, hf, List.countP_cons, ih, hp]

theorem find?_key_of_mem_nodup {α κ : Type} [DecidableEq κ] (l : List α)
    (f : α → κ) (hn : (l.map f).Nodup) (v : α) (hv : v ∈ l) :
    l.find? (fun w => f w = f v) = some v := by
  induction l with
  | nil => cases hv
  | cons a l ih =>
    rcases List.mem_cons.mp hv with h | h
    · subst h; simp [List.find?]
    · have hnotin : f a ∉ l.map f := (List.nodup_cons.mp (by simpa using hn)).1
      have hne : f a ≠ f v := by
        intro heq
        exact hnotin (heq ▸ List.mem_map_of_mem f h)
      have hn' : (l.map f).Nodup := (List.nodup_cons.mp (by simpa using hn)).2
      simp only [List.find?, show (decide (f a = f v)) = false by simpa using hne]
      exact ih hn' h

theorem find?_labeled_map {κ V : Type} (keys : List κ) (label : κ → String)
    (g : κ → Option V) (k : κ) (hk : k ∈ keys)
    (hinj : ∀ x ∈ keys, ∀ y ∈ keys, label x = label y → x = y) :
    ((keys.map (fun x => (label x, g x))).find? (fun p => p.1 = label k)) =
      some (label k, g k) := by
  induction keys with
  | nil => cases hk
  | cons a keys ih =>
    by_cases hl : label a = label k
    · have hak : a = k :=
        hinj a (List.mem_cons_self _ _) k hk hl
      subst hak
      simp [List.find?]
    · rcases List.mem_cons.mp hk with h | h
      · exact absurd (by rw [h] : label a = label k) hl
      · simp only [List.map_cons, List.find?,
          show (decide ((label a) = label k)) = false by simpa using hl]
        exact ih h (fun x hx y hy hxy =>
          hinj x (List.mem_cons_of_mem _ hx) y (List.mem_cons_of_mem _ hy) hxy)

theorem find?_labeled_map_none {κ V : Type} (keys : List κ)
    (label : κ → String) (g : κ → Option V) (s : String)
    (hs : ∀ x ∈ keys, label x ≠ s) :
    ((keys.map (fun x => (label x, g x))).find? (fun p => p.1 = s)) = none := by
  rw [List.find?_eq_none]
  intro p hp
  rcases List.mem_map.mp hp with ⟨x, hx, hxp⟩
  simp only [decide_eq_true_eq]
  intro hps
  exact hs x hx (by rw [← hxp] at hps; exact hps)

theorem dlookup_labelGroupDict {κ ρ V : Type} [DecidableEq κ]
    (rows : List (κ × ρ)) (label : κ → String) (f : List ρ → Option V)
    (hinj : ∀ x ∈ rows.map Prod.fst, ∀ y ∈ rows.map Prod.fst,
      label x = label y → x = y) :
    (∀ k ∈ rows.map Prod.fst,
      dlookup (buildDict ((groupPairs rows).map
        (fun kg => (label kg.1, f kg.2)))) (label k) =
        some (f (rows.filterMap (fun p => if p.1 = k then some p.2 else none)))) ∧
    (∀ s : String, (∀ x ∈ rows.map Prod.fst, label x ≠ s) →
      dlookup (buildDict ((groupPairs rows).map
        (fun kg => (label kg.1, f kg.2)))) s = none) := by
  have hentries : (groupPairs rows).map (fun kg => (label kg.1, f kg.2)) =
      (rows.map Prod.fst).dedup.map (fun x =>
        (label x,
          f (rows.filterMap (fun p => if p.1 = x then some p.2 else none)))) := by
    simp [groupPairs, List.map_map]
  have hinjd : ∀ x ∈ (rows.map Prod.fst).dedup, ∀ y ∈ (rows.map Prod.fst).dedup,
      label x = label y → x = y := by
    intro x hx y hy hxy
    exact hinj x (List.mem_dedup.mp hx) y (List.mem_dedup.mp hy) hxy
  have hkeys : ((((rows.map Prod.fst).dedup.map (fun x =>
      (label x,
        f (rows.filterMap (fun p => if p.1 = x then some p.2 else none)))))).map
        Prod.fst).Nodup := by
    have hid : ((((rows.map Prod.fst).dedup.map (fun x =>
        (label x,
          f (rows.filterMap (fun p => if p.1 = x then some p.2 else none)))))).map
          Prod.fst) = (rows.map Prod.fst).dedup.map label := by
      rw [List.map_map]
      rfl
    rw [hid]
    exact List.Nodup.map_on hinjd (rows.map Prod.fst).nodup_dedup
  constructor
  · intro k hk
    rw [hentries, buildDict_of_nodup _ hkeys, dlookup,
      find?_labeled_map _ label _ k (List.mem_dedup.mpr hk) hinjd]
    rfl
  · intro s hs
    rw [hentries, buildDict_of_nodup _ hkeys, dlookup,
      find?_labeled_map_none _ label _ s
        (fun x hx => hs x (List.mem_dedup.mp hx))]
    rfl

end BlockMonitor

namespace BlockMonitor

/-- The number of sync-committee rows in the inclusive range for one
validator and one participation flag, counted directly over the table. -/
def syncCount (db : DB) (v : Validator) (flag : Bool) (a b : Int) : Nat :=
  (syncRows db).countP (fun r =>
    r.validator_id = v.id &&
      (r.participated = flag && a ≤ r.slot_number && r.slot_number ≤ b))

theorem syncPerfDict_lookup (db : DB) (rows : List SyncRow) (flag : Bool)
    (a b : Int) (hrows : syncRows db = rows)
    (hids : (db.validators.map (fun v => v.id)).Nodup)
    (hkeys : (db.validators.map (fun v => v.public_key)).Nodup)
    (v : Validator) (hv : v ∈ db.validators) :
    dlookup (syncPerfDict db rows flag a b) v.public_key =
      (if 0 < syncCount db v flag a b then
        some (some (syncCount db v flag a b : Int)) else none) := by
  unfold syncPerfDict
  set rows2 := rows.filter (fun r => r.participated = flag &&
    a ≤ r.slot_number && r.slot_number ≤ b) with hrows2
  set joined := rows2.filterMap (fun r =>
    (db.validators.find? (fun v2 => v2.id = r.validator_id)).map
      (fun v2 => (v2, r))) with hjoined
  have hsub : ∀ x ∈ joined.map Prod.fst, x ∈ db.validators := by
    intro x hx
    rcases List.mem_map.mp hx with ⟨p, hp, hpx⟩
    rcases List.mem_filterMap.mp hp with ⟨r, _, hmap⟩
    rcases Option.map_eq_some'.mp hmap with ⟨v2, hfind, hpair⟩
    have : p.1 = v2 := by rw [← hpair]
    rw [← hpx, this]
    exact List.mem_of_find?_eq_some hfind
  have hinj : ∀ x ∈ joined.map Prod.fst, ∀ y ∈ joined.map Prod.fst,
      x.public_key = y.public_key → x = y := by
    intro x hx y hy hxy
    exact List.inj_on_of_nodup_map hkeys (hsub x hx) (hsub y hy) hxy
  have hcnt : joined.countP (fun p => p.1 = v) = syncCount db v flag a b := by
    have step1 : joined.countP (fun p => p.1 = v) =
        rows2.countP (fun r => r.validator_id = v.id) := by
      rw [hjoined, countP_filterMap_opt]
      apply List.countP_congr
      intro r _
      by_cases hid : r.validator_id = v.id
      · have hfv : db.validators.find? (fun v2 => v2.id = v.id) = some v :=
          find?_key_of_mem_nodup db.validators (fun w => w.id) hids v hv
        simp [hid, hfv, Function.comp]
      · cases hf2 : db.validators.find? (fun v2 => v2.id = r.validator_id) with
        | none => simp [hf2, hid]
        | some v2 =>
          have hv2 : v2.id = r.validator_id := by
            simpa using List.find?_some hf2
          have hne : v2 ≠ v := by
            intro he
            exact hid (by rw [← hv2, he])
          simp [hf2, hid, hne]
    have step2 : rows2.countP (fun r => r.validator_id = v.id) =
        syncCount db v flag a b := by
      rw [hrows2, syncCount, hrows, List.countP_filter]
    rw [step1, step2]
  by_cases hpos : 0 < syncCount db v flag a b
  · have hmem : v ∈ joined.map Prod.fst := by
      have : 0 < joined.countP (fun p => p.1 = v) := by rw [hcnt]; exact hpos
      rcases List.countP_pos_iff.mp this with ⟨p, hp, hpv⟩
      have hpv' : p.1 = v := by simpa using hpv
      rw [← hpv']
      exact List.mem_map_of_mem Prod.fst hp
    have hlook := (dlookup_labelGroupDict joined (fun v2 => v2.public_key)
      (fun g => some ((g.length : Nat) : Int)) hinj).1 v hmem
    rw [hlook, if_pos hpos]
    rw [length_filterMap_eq_countP joined v, hcnt]
  · have hzero : syncCount db v flag a b = 0 := by omega
    have hnomem : v ∉ joined.map Prod.fst := by
      intro hmem
      rcases List.mem_map.mp hmem with ⟨p, hp, hpv⟩
      have : 0 < joined.countP (fun p => p.1 = v) :=
        List.countP_pos_iff.mpr ⟨p, hp, by simpa using hpv⟩
      rw [hcnt] at this
      omega
    have hs : ∀ x ∈ joined.map Prod.fst, x.public_key ≠ v.public_key := by
      intro x hx hxe
      have : x = v :=
        List.inj_on_of_nodup_map hkeys (hsub x hx) hv hxe
      rw [this] at hx
      exact hnomem hx
    have hlook := (dlookup_labelGroupDict joined (fun v2 => v2.public_key)
      (fun g => some ((g.length : Nat) : Int)) hinj).2 v.public_key hs
    rw [hlook, if_neg hpos]

end BlockMonitor

namespace BlockMonitor

/-- C9 counterexample: with `start > end` the function raises instead of
returning two maps, refuting the claim for that pair of slot numbers. -/
theorem claim9_counterexample :
    get_sync_committee_performance_between_slots 2 1 dbNoSlots = none := rfl

/-- C9 (amended): for `start ≤ end` (with `start > end` the call raises),
`get_sync_committee_performance_between_slots` returns two maps keyed by
validator public key — the participated counts and the missed counts over
the inclusive range — and the two maps are empty whenever the
sync-committee table does not exist or holds no row in the range. -/
theorem claim9_sync_perf_between (a b : Int) (db : DB) (hab : a ≤ b)
    (hids : (db.validators.map (fun v => v.id)).Nodup)
    (hkeys : (db.validators.map (fun v => v.public_key)).Nodup) :
    ∃ pm db2, get_sync_committee_performance_between_slots a b db =
        some (pm, db2) ∧
      ((db.sync = none ∨ ¬ ∃ r ∈ syncRows db,
          a ≤ r.slot_number ∧ r.slot_number ≤ b) → pm.1 = [] ∧ pm.2 = []) ∧
      (∀ v ∈ db.validators,
        dlookup pm.1 v.public_key = (if 0 < syncCount db v true a b then
          some (some (syncCount db v true a b : Int)) else none) ∧
        dlookup pm.2 v.public_key = (if 0 < syncCount db v false a b then
          some (some (syncCount db v false a b : Int)) else none)) := by
  have hnab : ¬ a > b := not_lt.mpr hab
  unfold get_sync_committee_performance_between_slots
  rw [if_neg hnab]
  cases hsync : db.sync with
  | none =>
    refine ⟨([], []), _, rfl, fun _ => ⟨rfl, rfl⟩, ?_⟩
    intro v _
    have hrows : syncRows db = [] := by simp [syncRows, hsync]
    have hc1 : syncCount db v true a b = 0 := by simp [syncCount, hrows]
    have hc0 : syncCount db v false a b = 0 := by simp [syncCount, hrows]
    simp [dlookup, hc1, hc0]
  | some rows =>
    have hrows : syncRows db = rows := by simp [syncRows, hsync]
    by_cases hex : existsSyncBetween a b db
    · simp only [hex, Bool.not_true, Bool.false_eq_true, if_false]
      refine ⟨(syncPerfDict db rows true a b, syncPerfDict db rows false a b),
        db, rfl, ?_, ?_⟩
      · intro hcases
        rcases hcases with h | h
        · exact Option.noConfusion h
        · exfalso
          apply h
          rcases List.any_eq_true.mp hex with ⟨r, hr, hpred⟩
          refine ⟨r, hr, ?_, ?_⟩ <;> simp only [Bool.and_eq_true,
            decide_eq_true_eq] at hpred
          · exact hpred.1
          · exact hpred.2
      · intro v hv
        exact ⟨syncPerfDict_lookup db rows true a b hrows hids hkeys v hv,
          syncPerfDict_lookup db rows false a b hrows hids hkeys v hv⟩
    · simp only [hex, Bool.not_false]
      rw [if_pos (by simp [hex])]
      refine ⟨([], []), db, rfl, fun _ => ⟨rfl, rfl⟩, ?_⟩
      intro v _
      have hnone : ∀ r ∈ syncRows db,
          ¬ (a ≤ r.slot_number ∧ r.slot_number ≤ b) := by
        intro r hr hcontra
        apply hex
        unfold existsSyncBetween
        refine List.any_eq_true.mpr ⟨r, hr, ?_⟩
        simp [hcontra.1, hcontra.2]
      have hc : ∀ flag, syncCount db v flag a b = 0 := by
        intro flag
        unfold syncCount
        rw [List.countP_eq_zero]
        intro r hr
        simp only [Bool.and_eq_true, decide_eq_true_eq]
        intro hcon
        exact hnone r hr ⟨hcon.2.1.2, hcon.2.2⟩
      simp [dlookup, hc]

/-- A database with one validator and two sync-committee rows, one
participated and one missed. -/
def dbSync9 : DB :=
  { validators := [{ id := 1, public_key := "v1", val_index := some 7 }],
    relayers := [], slots := [], archive := none,
    sync := some [{ slot_number := 1, validator_id := 1, participated := true },
                  { slot_number := 2, validator_id := 1, participated := false }],
    has_val_index := true }

/-- C9 witness: the amended theorem applied to a database with one
indexed validator, one in-range participated row and one in-range missed
row. -/
theorem claim9_witness :
    ∃ pm db2, get_sync_committee_performance_between_slots 1 2 dbSync9 =
        some (pm, db2) ∧
      ((dbSync9.sync = none ∨ ¬ ∃ r ∈ syncRows dbSync9,
          1 ≤ r.slot_number ∧ r.slot_number ≤ 2) → pm.1 = [] ∧ pm.2 = []) ∧
      (∀ v ∈ dbSync9.validators,
        dlookup pm.1 v.public_key = (if 0 < syncCount dbSync9 v true 1 2 then
          some (some (syncCount dbSync9 v true 1 2 : Int)) else none) ∧
        dlookup pm.2 v.public_key = (if 0 < syncCount dbSync9 v false 1 2 then
          some (some (syncCount dbSync9 v false 1 2 : Int)) else none)) :=
  claim9_sync_perf_between 1 2 dbSync9 (by decide) (by decide) (by decide)

end BlockMonitor

namespace BlockMonitor

/-! ### Backfill lemmas for C4 -/

theorem backfillZero_preserve {V : Type} [Zero V] (names : List String) :
    ∀ (d : Dict V) (n : String) (v : Option V), dlookup d n = some v →
      dlookup (backfillZero d names) n = some v := by
  induction names with
  | nil => intro d n v h; exact h
  | cons a rest ih =>
    intro d n v h
    unfold backfillZero
    rw [List.foldl_cons]
    by_cases hf : (d.find? (fun p => p.1 = a)).isSome
    · rw [if_pos hf]
      exact ih d n v h
    · rw [if_neg hf]
      apply ih
      rw [dlookup_append, h]
      rfl

theorem backfillZero_mem {V : Type} [Zero V] (names : List String) :
    ∀ (d : Dict V) (n : String), n ∈ names →
      (dlookup (backfillZero d names) n).isSome ∧
      (dlookup d n = none → dlookup (backfillZero d names) n = some (some 0)) := by
  induction names with
  | nil => intro d n hn; cases hn
  | cons a rest ih =>
    intro d n hn
    unfold backfillZero
    rw [List.foldl_cons]
    by_cases han : a = n
    · subst han
      by_cases hf : (d.find? (fun p => p.1 = a)).isSome
      · rw [if_pos hf]
        rcases Option.isSome_iff_exists.mp (by
          simpa [dlookup] using hf : (dlookup d a).isSome) with ⟨v, hv⟩
        have hkeep := backfillZero_preserve rest d a v hv
        unfold backfillZero at hkeep
        refine ⟨by rw [hkeep]; rfl, ?_⟩
        intro hnone
        rw [hnone] at hv
        cases hv
      · rw [if_neg hf]
        have hnd : dlookup d a = none := by
          rw [dlookup_eq_none_iff_find?]
          exact Option.not_isSome_iff_eq_none.mp hf
        have happ : dlookup (d ++ [(a, some 0)]) a = some (some 0) := by
          rw [dlookup_append, hnd, dlookup_cons, if_pos rfl]
          rfl
        have hkeep := backfillZero_preserve rest (d ++ [(a, some 0)]) a
          (some 0) happ
        unfold backfillZero at hkeep
        exact ⟨by rw [hkeep]; rfl, fun _ => hkeep⟩
    · have hnr : n ∈ rest := by
        rcases List.mem_cons.mp hn with h | h
        · exact absurd h.symm han
        · exact h
      by_cases hf : (d.find? (fun p => p.1 = a)).isSome
      · rw [if_pos hf]
        exact ih d n hnr
      · rw [if_neg hf]
        have heq : dlookup (d ++ [(a, some 0)]) n = dlookup d n := by
          rw [dlookup_append, dlookup_cons, if_neg han]
          cases dlookup d n <;> simp [dlookup]
        rcases ih (d ++ [(a, some 0)]) n hnr with ⟨h1, h2⟩
        refine ⟨h1, ?_⟩
        intro hnone
        exact h2 (by rw [heq]; exact hnone)

/-- One metric map is properly zero-filled for a relayer name: the key is
present, and if it was absent from the computed metric it now carries 0. -/
def zeroFilled {V : Type} [Zero V] (pre post : Dict V) (n : String) : Prop :=
  (dlookup post n).isSome ∧
    (dlookup pre n = none → dlookup post n = some (some 0))

/-- A registry holding only the sentinel relayer and no data at all. -/
def dbUnknownOnly : DB :=
  { validators := [],
    relayers := [{ id := 1, name := "Unknown", endpoint := "N/A" }],
    slots := [], archive := none, sync := none, has_val_index := false }

/-- C4 counterexample: `populate_data_obj` completes on a registry
containing relay name Unknown with no observed slots, yet the
validator-keyed map `ValidatorBlocksProposed` (one of the eleven) has no
entry for Unknown — only eight of the eleven maps are backfilled. -/
theorem claim4_counterexample :
    (populate_data_obj dbUnknownOnly).map
      (fun o => dlookup o.metrics.validatorBlocksProposed "Unknown") =
      some none := rfl

/-- C4 (amended): after `populate_data_obj` finishes, each of the eight
relay-keyed metric maps (not all eleven — the three validator-keyed maps
are left untouched) contains an entry for every relayer name in the
registry, with value 0 whenever the name was absent from the computed
query result. -/
theorem claim4_zero_fill (db : DB) (m : Metrics) (o : DataObj)
    (hm : get_metrics_from_db db = some m)
    (ho : populate_data_obj db = some o)
    (n : String) (hn : n ∈ get_relayers_list db) :
    zeroFilled m.relayBlocksProposed o.metrics.relayBlocksProposed n ∧
    zeroFilled m.totalRelayBlocksProposed o.metrics.totalRelayBlocksProposed n ∧
    zeroFilled m.relayTotalRewards o.metrics.relayTotalRewards n ∧
    zeroFilled m.avgRelayerRewards o.metrics.avgRelayerRewards n ∧
    zeroFilled m.unknownRewardsBlocks o.metrics.unknownRewardsBlocks n ∧
    zeroFilled m.totalValidatorRewards o.metrics.totalValidatorRewards n ∧
    zeroFilled m.avgValidatorRewards o.metrics.avgValidatorRewards n ∧
    zeroFilled m.valUnknownRewardBlocks o.metrics.valUnknownRewardBlocks n := by
  have ho2 : o =
    { last_slot := (((dataSlots db).getLast?).map (fun v => v.slot)).getD 0,
      slots := dataSlots db,
      metrics := { m with
        relayBlocksProposed :=
          backfillZero m.relayBlocksProposed (get_relayers_list db),
        totalRelayBlocksProposed :=
          backfillZero m.totalRelayBlocksProposed (get_relayers_list db),
        relayTotalRewards :=
          backfillZero m.relayTotalRewards (get_relayers_list db),
        avgRelayerRewards :=
          backfillZero m.avgRelayerRewards (get_relayers_list db),
        unknownRewardsBlocks :=
          backfillZero m.unknownRewardsBlocks (get_relayers_list db),
        totalValidatorRewards :=
          backfillZero m.totalValidatorRewards (get_relayers_list db),
        avgValidatorRewards :=
          backfillZero m.avgValidatorRewards (get_relayers_list db),
        valUnknownRewardBlocks :=
          backfillZero m.valUnknownRewardBlocks (get_relayers_list db) } } := by
    unfold populate_data_obj at ho
    rw [hm] at ho
    simp only [Option.map_some', Option.some.injEq] at ho
    exact ho.symm
  subst ho2
  refine ⟨?_, ?_, ?_, ?_, ?_, ?_, ?_, ?_⟩ <;>
    exact backfillZero_mem (get_relayers_list db) _ n hn

end BlockMonitor

namespace BlockMonitor

/-- The metrics object with all eleven maps empty. -/
def emptyMetrics : Metrics :=
  { relayBlocksProposed := [], totalRelayBlocksProposed := [],
    relayTotalRewards := [], avgRelayerRewards := [],
    unknownRewardsBlocks := [], validatorBlocksProposed := [],
    missedBlockProposals := [], emptyBlockProposals := [],
    totalValidatorRewards := [], avgValidatorRewards := [],
    valUnknownRewardBlocks := [] }

/-- The data object `populate_data_obj` produces on `dbUnknownOnly`. -/
def oUnknown : DataObj :=
  (populate_data_obj dbUnknownOnly).getD
    { last_slot := 0, slots := [], metrics := emptyMetrics }

/-- C4 witness: the amended zero-fill theorem applied to the sentinel-only
registry, for the name Unknown. -/
theorem claim4_witness :
    zeroFilled emptyMetrics.relayBlocksProposed
      oUnknown.metrics.relayBlocksProposed "Unknown" ∧
    zeroFilled emptyMetrics.totalRelayBlocksProposed
      oUnknown.metrics.totalRelayBlocksProposed "Unknown" ∧
    zeroFilled emptyMetrics.relayTotalRewards
      oUnknown.metrics.relayTotalRewards "Unknown" ∧
    zeroFilled emptyMetrics.avgRelayerRewards
      oUnknown.metrics.avgRelayerRewards "Unknown" ∧
    zeroFilled emptyMetrics.unknownRewardsBlocks
      oUnknown.metrics.unknownRewardsBlocks "Unknown" ∧
    zeroFilled emptyMetrics.totalValidatorRewards
      oUnknown.metrics.totalValidatorRewards "Unknown" ∧
    zeroFilled emptyMetrics.avgValidatorRewards
      oUnknown.metrics.avgValidatorRewards "Unknown" ∧
    zeroFilled emptyMetrics.valUnknownRewardBlocks
      oUnknown.metrics.valUnknownRewardBlocks "Unknown" :=
  claim4_zero_fill dbUnknownOnly emptyMetrics oUnknown rfl rfl "Unknown"
    (by decide)

end BlockMonitor

namespace BlockMonitor

/-- C8: proposer fallback.  Inserting a slot whose proposer public key
has no validator row (with the relay resolving and the slot number fresh)
stores the row with the raw public key and a NULL proposer id; the slot
is counted in `TotalRelayBlocksProposed` for its relay (the live count
for the relay name grows by one), while the validator-scoped metrics
(`ValidatorBlocksProposed`, `MissedBlockProposals`,
`EmptyBlockProposals`) and the validator-scoped prune aggregation feeding
`archive_validator_slots` are unaffected by it. -/
theorem claim8_proposer_fallback (n : Int) (proposer relayer : String)
    (missed empty : Bool) (reward : ℚ) (db : DB) (rel : Relayer)
    (res : OpResult)
    (hids : (db.relayers.map (fun r => r.id)).Nodup)
    (hprop : db.validators.find? (fun v => v.public_key = proposer) = none)
    (hrel : db.relayers.find? (fun r => r.name = relayer) = some rel)
    (hfresh : db.slots.any (fun s => s.number = n) = false)
    (hres : insert_new_slot n proposer relayer missed empty reward db = res) :
    res.ok = true ∧
    res.db.slots = db.slots ++
      [{ number := n, proposer_id := none, proposer_pubkey := some proposer,
         relay_id := rel.id, missed := missed, empty := empty,
         reward := if reward = -1 then none else some reward }] ∧
    dlookup (get_total_relay_blocks_proposed res.db) rel.name =
      some (some (liveCountZ db rel.name + 1)) ∧
    get_validator_blocks_proposed res.db = get_validator_blocks_proposed db ∧
    get_missed_block_proposals res.db = get_missed_block_proposals db ∧
    get_empty_block_proposals res.db = get_empty_block_proposals db ∧
    (∀ c, valDeltas res.db c = valDeltas db c) ∧
    res.db.archive = db.archive := by
  have hres2 : res = { ok := true, db := { db with slots := db.slots ++
      [{ number := n, proposer_id := none, proposer_pubkey := some proposer,
         relay_id := rel.id, missed := missed, empty := empty,
         reward := if reward = -1 then none else some reward }] } } := by
    rw [← hres]
    simp [insert_new_slot, hprop, hrel, hfresh]
  subst hres2
  have hrelmem : rel ∈ db.relayers := List.mem_of_find?_eq_some hrel
  have hrelname : rel.name = relayer := by
    simpa using List.find?_some hrel
  have hfindid : db.relayers.find? (fun r => r.id = rel.id) = some rel :=
    find?_key_of_mem_nodup db.relayers (fun r => r.id) hids rel hrelmem
  set rowX : SlotRow :=
    { number := n, proposer_id := none, proposer_pubkey := some proposer,
      relay_id := rel.id, missed := missed, empty := empty,
      reward := if reward = -1 then none else some reward } with hrowX
  refine ⟨rfl, rfl, ?_, ?_, ?_, ?_, ?_, rfl⟩
  · have hrows : relayRows { db with slots := db.slots ++ [rowX] } =
        relayRows db ++ [(rel.name, rowX)] := by
      unfold relayRows relayerOfSlot
      rw [List.filterMap_append]
      simp [hfindid, hrowX]
    rw [get_total_relay_blocks_proposed, hrows, dlookup_countDict]
    have hcnt : (relayRows db ++ [(rel.name, rowX)]).countP
          (fun p => p.1 = rel.name) =
        (relayRows db).countP (fun p => p.1 = rel.name) + 1 := by
      rw [List.countP_append]
      simp
    rw [hcnt]
    have hpos : 0 < (relayRows db).countP (fun p => p.1 = rel.name) + 1 :=
      Nat.succ_pos _
    rw [if_pos hpos]
    unfold liveCountZ
    push_cast
    ring_nf
  · unfold get_validator_blocks_proposed valRows validatorOfSlot
    rw [List.filterMap_append]
    simp
  · unfold get_missed_block_proposals valRows validatorOfSlot
    rw [List.filterMap_append]
    simp
  · unfold get_empty_block_proposals valRows validatorOfSlot
    rw [List.filterMap_append]
    simp
  · intro c
    unfold valDeltas prunedValSlots validatorOfSlot
    rw [List.filterMap_append]
    by_cases hc : n < c <;> simp [hc]

end BlockMonitor

namespace BlockMonitor

/-- The result of inserting a slot with an untracked proposer. -/
def res8 : OpResult := insert_new_slot 3 "px" "R" false false 5 dbC6

/-- C8 witness: the proposer-fallback theorem applied to a concrete
insert whose proposer public key is not in the validators table. -/
theorem claim8_witness :
    res8.ok = true ∧
    res8.db.slots = dbC6.slots ++
      [{ number := 3, proposer_id := none, proposer_pubkey := some "px",
         relay_id := relW.id, missed := false, empty := false,
         reward := if (5 : ℚ) = -1 then none else some 5 }] ∧
    dlookup (get_total_relay_blocks_proposed res8.db) relW.name =
      some (some (liveCountZ dbC6 relW.name + 1)) ∧
    get_validator_blocks_proposed res8.db = get_validator_blocks_proposed dbC6 ∧
    get_missed_block_proposals res8.db = get_missed_block_proposals dbC6 ∧
    get_empty_block_proposals res8.db = get_empty_block_proposals dbC6 ∧
    (∀ c, valDeltas res8.db c = valDeltas dbC6 c) ∧
    res8.db.archive = dbC6.archive :=
  claim8_proposer_fallback 3 "px" "R" false false 5 dbC6 relW res8
    (by decide) (by decide) (by decide) (by decide) rfl

end BlockMonitor

namespace BlockMonitor

/-! ### C3: the combined relay-reward average -/

/-- The combined `AvgRelayerRewards` metric as the source computes it:
the live averages joined with the archive-and-live weighted query via
`join_archive_queries` with `avg=True`. -/
def combinedAvgRelay (db : DB) : Option (Dict ℚ) :=
  join_archive_queries (get_avg_relay_rewards db)
    (archive_get_avg_relay_rewards db) true

theorem find?_eq_some_of_unique {α : Type} (l : List α) (p : α → Bool) (x : α)
    (hx : x ∈ l) (hpx : p x = true) (huniq : ∀ y ∈ l, p y = true → y = x) :
    l.find? p = some x := by
  induction l with
  | nil => cases hx
  | cons a l ih =>
    by_cases hpa : p a = true
    · rw [List.find?_cons_of_pos _ hpa]
      rw [huniq a (List.mem_cons_self _ _) hpa]
    · rw [List.find?_cons_of_neg _ (by simpa using hpa)]
      rcases List.mem_cons.mp hx with h | h
      · rw [← h] at hpa; exact absurd hpx hpa
      · exact ih h (fun y hy hpy => huniq y (List.mem_cons_of_mem _ hy) hpy)

theorem filterMap_pair_snd {α β : Type} (l : List α) (h : α → Option β) :
    (l.filterMap (fun x => (h x).map (fun r => (r, x)))).map Prod.snd =
      l.filter (fun x => (h x).isSome) := by
  induction l with
  | nil => rfl
  | cons a l ih =>
    cases hh : h a with
    | none => simp [List.filterMap_cons, hh, List.filter_cons, ih]
    | some r => simp [List.filterMap_cons, hh, List.filter_cons, ih]

/-- C3 (amended): for a relay whose archive row carries non-NULL
`total_rewards` and `total_slots` (and a non-zero combined denominator),
the combined `AvgRelayerRewards` value is the single weighted mean
`(stored archive total_rewards + sum of live qualifying rewards) /
(stored archive total_slots + count of live qualifying slots)`, where
live qualifying slots are those of the relay with a known, non-missed,
non-empty reward.  (The stored archive totals count every pruned slot
with a known reward, missed and empty ones included — not only the
qualifying ones the claim describes, which is what the counterexample
exhibits.) -/
theorem claim3_avg_weighted_mean (db : DB) (rel : Relayer)
    (a : ArchRelayerRow) (tr : ℚ) (ts : Int)
    (hidsR : (db.relayers.map (fun r => r.id)).Nodup)
    (hnames : (db.relayers.map (fun r => r.name)).Nodup)
    (harids : ((archRelRows db).map (fun x => x.relay_id)).Nodup)
    (hrelmem : rel ∈ db.relayers)
    (hamem : a ∈ archRelRows db)
    (hmatch : a.relay_id = rel.id)
    (htr : a.total_rewards = some tr)
    (hts : a.total_slots = some ts)
    (hden : ((ts : ℚ) + (((db.slots.filter (fun s => s.relay_id = rel.id &&
        !s.missed && !s.empty && s.reward.isSome)).length : Nat) : ℚ)) ≠ 0) :
    ∃ d, combinedAvgRelay db = some d ∧
      dlookup d rel.name = some (some ((tr +
        ((db.slots.filter (fun s => s.relay_id = rel.id && !s.missed &&
          !s.empty && s.reward.isSome)).filterMap (fun s => s.reward)).sum) /
        ((ts : ℚ) + (((db.slots.filter (fun s => s.relay_id = rel.id &&
          !s.missed && !s.empty && s.reward.isSome)).length : Nat) : ℚ)))) := by
  have hpair_mem : (rel, a) ∈ archRelJoin db := by
    unfold archRelJoin
    apply List.mem_filterMap.mpr
    refine ⟨a, hamem, ?_⟩
    rw [hmatch,
      find?_key_of_mem_nodup db.relayers (fun r => r.id) hidsR rel hrelmem]
    rfl
  have hsubJ : ∀ p ∈ archRelJoin db,
      p.1 ∈ db.relayers ∧ p.2 ∈ archRelRows db ∧ p.1.id = p.2.relay_id := by
    intro p hp
    unfold archRelJoin at hp
    rcases List.mem_filterMap.mp hp with ⟨x, hx, hmap⟩
    rcases Option.map_eq_some'.mp hmap with ⟨r, hfind, hpair⟩
    have hp1 : p.1 = r := by rw [← hpair]
    have hp2 : p.2 = x := by rw [← hpair]
    refine ⟨hp1 ▸ List.mem_of_find?_eq_some hfind, hp2 ▸ hx, ?_⟩
    have := List.find?_some hfind
    simp only [decide_eq_true_eq] at this
    rw [hp1, hp2, this]
  have hsndN : ((archRelJoin db).map (fun p => p.2.relay_id)).Nodup := by
    have hmsnd : (archRelJoin db).map Prod.snd =
        (archRelRows db).filter (fun x =>
          (db.relayers.find? (fun r => r.id = x.relay_id)).isSome) := by
      unfold archRelJoin
      exact filterMap_pair_snd (archRelRows db)
        (fun (x : ArchRelayerRow) =>
          db.relayers.find? (fun r => r.id = x.relay_id))
    have hcomp : (archRelJoin db).map (fun p => p.2.relay_id) =
        ((archRelJoin db).map Prod.snd).map
          (fun (x : ArchRelayerRow) => x.relay_id) := by
      rw [List.map_map]; rfl
    rw [hcomp, hmsnd]
    exact ((List.filter_sublist _).map
      (fun (x : ArchRelayerRow) => x.relay_id)).nodup harids
  have hrowsN : (archRelJoin db).Nodup := List.Nodup.of_map _ hsndN
  have hdet : ∀ p ∈ archRelJoin db, ∀ q ∈ archRelJoin db,
      p.1.name = q.1.name → p = q := by
    intro p hp q hq hname
    rcases hsubJ p hp with ⟨hp1, hp2, hp3⟩
    rcases hsubJ q hq with ⟨hq1, hq2, hq3⟩
    have h1 : p.1 = q.1 := List.inj_on_of_nodup_map hnames hp1 hq1 hname
    have h2 : p.2 = q.2 := by
      apply List.inj_on_of_nodup_map harids hp2 hq2
      rw [← hp3, ← hq3, h1]
    exact Prod.ext h1 h2
  have hkeysN : (((archRelJoin db).map (fun p =>
      (p.1.name, sqlDivQ (sqlAddQ p.2.total_rewards
        (some (((db.slots.filter (fun s => s.relay_id = p.1.id && !s.missed &&
          !s.empty && s.reward.isSome)).filterMap (fun s => s.reward)).sum)))
        (sqlAddQ (p.2.total_slots.map (fun (t : Int) => (t : ℚ)))
          (some (((db.slots.filter (fun s => s.relay_id = p.1.id && !s.missed &&
            !s.empty && s.reward.isSome)).length : Nat) : ℚ)))))).map
        Prod.fst).Nodup := by
    rw [List.map_map]
    apply List.Nodup.map_on
    · intro p hp q hq h
      exact hdet p hp q hq h
    · exact hrowsN
  have hAdef : archive_get_avg_relay_rewards db = (archRelJoin db).map (fun p =>
      (p.1.name, sqlDivQ (sqlAddQ p.2.total_rewards
        (some (((db.slots.filter (fun s => s.relay_id = p.1.id && !s.missed &&
          !s.empty && s.reward.isSome)).filterMap (fun s => s.reward)).sum)))
        (sqlAddQ (p.2.total_slots.map (fun (t : Int) => (t : ℚ)))
          (some (((db.slots.filter (fun s => s.relay_id = p.1.id && !s.missed &&
            !s.empty && s.reward.isSome)).length : Nat) : ℚ))))) := by
    unfold archive_get_avg_relay_rewards
    exact buildDict_of_nodup _ hkeysN
  have hvalue : dlookup (archive_get_avg_relay_rewards db) rel.name =
      some (sqlDivQ (sqlAddQ a.total_rewards
        (some (((db.slots.filter (fun s => s.relay_id = rel.id && !s.missed &&
          !s.empty && s.reward.isSome)).filterMap (fun s => s.reward)).sum)))
        (sqlAddQ (a.total_slots.map (fun (t : Int) => (t : ℚ)))
          (some (((db.slots.filter (fun s => s.relay_id = rel.id && !s.missed &&
            !s.empty && s.reward.isSome)).length : Nat) : ℚ)))) := by
    rw [hAdef]
    unfold dlookup
    have hfind : (((archRelJoin db).map (fun p =>
        (p.1.name, sqlDivQ (sqlAddQ p.2.total_rewards
          (some (((db.slots.filter (fun s => s.relay_id = p.1.id && !s.missed &&
            !s.empty && s.reward.isSome)).filterMap (fun s => s.reward)).sum)))
          (sqlAddQ (p.2.total_slots.map (fun (t : Int) => (t : ℚ)))
            (some (((db.slots.filter (fun s => s.relay_id = p.1.id &&
              !s.missed && !s.empty &&
              s.reward.isSome)).length : Nat) : ℚ)))))).find?
          (fun p => p.1 = rel.name)) =
        some (rel.name, sqlDivQ (sqlAddQ a.total_rewards
          (some (((db.slots.filter (fun s => s.relay_id = rel.id && !s.missed &&
            !s.empty && s.reward.isSome)).filterMap (fun s => s.reward)).sum)))
          (sqlAddQ (a.total_slots.map (fun (t : Int) => (t : ℚ)))
            (some (((db.slots.filter (fun s => s.relay_id = rel.id &&
              !s.missed && !s.empty &&
              s.reward.isSome)).length : Nat) : ℚ)))) := by
      apply find?_eq_some_of_unique
      · exact List.mem_map_of_mem _ hpair_mem
      · simp
      · intro y hy hpy
        rcases List.mem_map.mp hy with ⟨p, hp, hpf⟩
        have hpn : p.1.name = rel.name := by
          have hy1 : y.1 = rel.name := by simpa using hpy
          rw [← hpf] at hy1
          exact hy1
        have hpeq : p = (rel, a) := hdet p hp (rel, a) hpair_mem (by
          rw [hpn])
        rw [← hpf, hpeq]
    rw [hfind]
    rfl
  have hAkeys2 : ((archive_get_avg_relay_rewards db).map Prod.fst).Nodup := by
    rw [hAdef]
    exact hkeysN
  have hacc : (archive_get_avg_relay_rewards db).foldl
      (fun d kv => dictUpsert d kv.1 kv.2) [] =
      archive_get_avg_relay_rewards db :=
    buildDict_of_nodup _ hAkeys2
  rcases join_avg_fold (get_avg_relay_rewards db)
      ((archive_get_avg_relay_rewards db).foldl
        (fun d kv => dictUpsert d kv.1 kv.2) []) with ⟨d, hd, hlook⟩
  refine ⟨d, hd, ?_⟩
  rw [hlook rel.name, hacc, hvalue, htr, hts]
  simp only [sqlAddQ, Option.map_some', sqlDivQ]
  simp only [if_neg hden]
  rfl

end BlockMonitor

namespace BlockMonitor

/-- The C3 counterexample trace: a missed slot with a known reward of 7,
then two normal slots with rewards 1 and 3, then a prune that archives
the missed slot. -/
def opsC3 : List Op :=
  [ .ins 1 "p" "R" true false 7, .ins 2 "p" "R" false false 1,
    .ins 3 "p" "R" false false 3, .prune 1 ]

/-- A proposer-fallback slot row for relay 1 with the given number and
reward. -/
def rowP (k : Int) (q : ℚ) : SlotRow :=
  { number := k, proposer_id := none, proposer_pubkey := some "p",
    relay_id := 1, missed := false, empty := false, reward := some q }

/-- The archive relayer row the counterexample trace produces: the pruned
missed slot's known reward is rolled up. -/
def arch3 : ArchRelayerRow :=
  { relay_id := 1, total_slots := some 1, total_rewards := some 7,
    total_unknown_slots := none }

/-- The state after running the C3 counterexample trace. -/
def dbFinal3 : DB :=
  { validators := [], relayers := [relW],
    slots := [rowP 2 1, rowP 3 3],
    archive := some ([arch3], []),
    sync := none, has_val_index := false }

/-- C3 counterexample: after the trace, the only qualifying slots ever
ingested (known, non-missed, non-empty reward) are the live ones with
rewards 1 and 3, so the claim's weighted mean is 2, but the code computes
(7 + 4) / (1 + 2) = 11/3 because the archive rollup counted the missed
slot's known reward — the claim's characterization of the archive side as
non-missed, non-empty slots is false on the code. -/
theorem claim3_counterexample :
    runDB opsC3 dbNoSlots = dbFinal3 ∧
    (combinedAvgRelay dbFinal3).map (fun d => dlookup d "R") =
      some (some (some (11 / 3 : ℚ))) ∧
    specAvgRelayReward (ingestedRecs opsC3 dbNoSlots) "R" = some 2 ∧
    (11 / 3 : ℚ) ≠ 2 := by
  refine ⟨?_, ?_, ?_, by norm_num⟩
  · norm_num [runDB, applyOp, opsC3, insert_new_slot, prune_db, ensureArchive,
      archive_exists, maxSlotNumber, pruneValidatorPass, pruneRelayerPass,
      pruneDelete, valDeltas, relDeltas, relDeltaOf, prunedValSlots,
      groupPairs, upsertRelArchive, upsertValArchive, archRelRows,
      archValRows, validatorOfSlot, relayerOfSlot, dbNoSlots, relW, posCount,
      sqlSumQ, sqlSumZ, List.find?, dbFinal3, List.dedup, rowP, arch3,
      List.filterMap_cons, List.sum_cons, List.sum_nil]
  · norm_num [combinedAvgRelay, dbFinal3, rowP, arch3, relW,
      get_avg_relay_rewards, archive_get_avg_relay_rewards, archRelJoin,
      archRelRows, relayRows, relayerOfSlot, groupPairs, buildDict,
      dictUpsert, dlookup, join_archive_queries, joinStep, sqlAvgQ, sqlSumQ,
      sqlAddQ, sqlDivQ, List.find?, List.filterMap_cons, List.sum_cons,
      List.sum_nil, List.dedup, List.foldlM]
  · norm_num [specAvgRelayReward, ingestedRecs, ingestRec?, opsC3, applyOp,
      insert_new_slot, prune_db, ensureArchive, archive_exists, maxSlotNumber,
      pruneValidatorPass, pruneRelayerPass, pruneDelete, valDeltas, relDeltas,
      relDeltaOf, prunedValSlots, groupPairs, upsertRelArchive, upsertValArchive,
      archRelRows, archValRows, validatorOfSlot, relayerOfSlot, dbNoSlots,
      relW, posCount, sqlSumQ, sqlSumZ, List.find?, List.dedup,
      List.filterMap_cons, List.sum_cons, List.sum_nil]

/-- The archive relayer row of the 3.5-instance: total_rewards 10 over 2
slots. -/
def archA : ArchRelayerRow :=
  { relay_id := 1, total_slots := some 2, total_rewards := some 10,
    total_unknown_slots := none }

/-- The 3.5-instance database: archive rollup of 10 over 2 slots plus
live qualifying rewards 1 and 3 for the same relay. -/
def dbA : DB :=
  { validators := [], relayers := [relW],
    slots := [rowP 10 1, rowP 11 3],
    archive := some ([archA], []),
    sync := none, has_val_index := false }

/-- C3 witness: the amended weighted-mean theorem applied to the claim's
own instance — live rewards [1, 3] and an archive rollup of 10 over 2
slots give (10 + 4) / (2 + 2) = 3.5. -/
theorem claim3_witness :
    ∃ d, combinedAvgRelay dbA = some d ∧
      dlookup d relW.name = some (some (7 / 2 : ℚ)) := by
  rcases claim3_avg_weighted_mean dbA relW archA 10 2 (by decide) (by decide)
      (by decide) (by decide) (by decide) (by decide) rfl rfl
      (by norm_num [dbA, rowP, relW]) with ⟨d, hd, hl⟩
  refine ⟨d, hd, ?_⟩
  rw [hl]
  norm_num [dbA, rowP, relW, List.filterMap_cons, List.sum_cons, List.sum_nil]

end BlockMonitor

namespace BlockMonitor

/-! ### C1: counting infrastructure -/

/-- Whether a slot joins to a relayer of the given name. -/
def slotNameIs (rels : List Relayer) (r : String) (s : SlotRow) : Bool :=
  match rels.find? (fun rl => rl.id = s.relay_id) with
  | some rl => rl.name = r
  | none => false

theorem liveCountZ_eq_countP (db : DB) (r : String) :
    liveCountZ db r = ((db.slots.countP (slotNameIs db.relayers r)) : Int) := by
  unfold liveCountZ relayRows relayerOfSlot
  rw [countP_filterMap_opt]
  congr 1
  apply List.countP_congr
  intro s _
  unfold slotNameIs
  cases db.relayers.find? (fun rl => rl.id = s.relay_id) <;> simp

/-- The contribution of one archive relayer row to the COALESCE-view
count of a relay name. -/
def rowContrib (rels : List Relayer) (r : String) (a : ArchRelayerRow) : Int :=
  match rels.find? (fun rl => rl.id = a.relay_id) with
  | some rl =>
    if rl.name = r then a.total_slots.getD 0 + a.total_unknown_slots.getD 0
    else 0
  | none => 0

/-- The COALESCE-view count over a list of archive relayer rows. -/
def rowsTotal (rels : List Relayer) (rows : List ArchRelayerRow)
    (r : String) : Int :=
  (rows.map (rowContrib rels r)).sum

theorem archCountZ_eq_rowsTotal (db : DB) (r : String) :
    archCountZ db r = rowsTotal db.relayers (archRelRows db) r := by
  unfold archCountZ archRelJoin rowsTotal
  induction archRelRows db with
  | nil => rfl
  | cons a rows ih =>
    rw [List.filterMap_cons, List.map_cons, List.sum_cons]
    cases hf : db.relayers.find? (fun rl => rl.id = a.relay_id) with
    | none =>
      rw [← ih]
      simp [rowContrib, hf]
    | some rl =>
      by_cases hn : rl.name = r
      · rw [← ih]
        simp [rowContrib, hf, hn]
      · rw [← ih]
        simp [rowContrib, hf, hn]

/-- The ever-count increment of one call. -/
def everInc (op : Op) (db : DB) (r : String) : Int :=
  match ingestRec? op db with
  | some rec => if rec.relay = r then 1 else 0
  | none => 0

theorem everZ_cons (op : Op) (ops : List Op) (db : DB) (r : String) :
    everZ (op :: ops) db r = everInc op db r + everZ ops (applyOp op db) r := by
  have hrec : ingestedRecs (op :: ops) db =
      (ingestRec? op db).toList ++ ingestedRecs ops (applyOp op db) := rfl
  unfold everZ everInc
  rw [hrec, List.countP_append]
  cases ingestRec? op db with
  | none => simp
  | some rec =>
    by_cases hr : rec.relay = r
    · simp only [Option.toList_some, List.countP_cons, List.countP_nil, hr]
      push_cast
      simp [add_comm]
    · simp only [Option.toList_some, List.countP_cons, List.countP_nil, hr]
      push_cast
      simp

/-- The invariant C1 needs along a run: distinct relayer ids, distinct
relayer names, distinct `relay_id` keys in the archive relayer rollup. -/
def C1Inv (db : DB) : Prop :=
  (db.relayers.map (fun rl => rl.id)).Nodup ∧
  (db.relayers.map (fun rl => rl.name)).Nodup ∧
  ((archRelRows db).map (fun a => a.relay_id)).Nodup

end BlockMonitor

namespace BlockMonitor

/-! ### C1: counting lemmas for the relay-level rollup -/

/-- Whether a relay id joins to a relayer of the given name. -/
def nameOfRid (R : List Relayer) (r : String) (rid : Nat) : Bool :=
  match R.find? (fun rl => rl.id = rid) with
  | some rl => rl.name = r
  | none => false

theorem slotNameIs_eq (R : List Relayer) (r : String) (s : SlotRow) :
    slotNameIs R r s = nameOfRid R r s.relay_id := rfl

theorem rowContrib_eq (R : List Relayer) (r : String) (a : ArchRelayerRow) :
    rowContrib R r a = if nameOfRid R r a.relay_id then
      a.total_slots.getD 0 + a.total_unknown_slots.getD 0 else 0 := by
  unfold rowContrib nameOfRid
  cases R.find? (fun rl => rl.id = a.relay_id) <;> simp

theorem length_filterMap_opt {α β : Type} (f : α → Option β) (l : List α) :
    (l.filterMap f).length = l.countP (fun x => (f x).isSome) := by
  induction l with
  | nil => rfl
  | cons a l ih =>
    cases h : f a <;> simp [List.filterMap_cons, h, List.countP_cons, ih]

theorem countP_add_not {α : Type} (l : List α) (p : α → Bool) :
    l.countP p + l.countP (fun a => !p a) = l.length := by
  induction l with
  | nil => rfl
  | cons a l ih =>
    have h' := ih
    by_cases h : p a <;> simp [List.countP_cons, h] <;> omega

theorem countP_filter_split {α : Type} (l : List α) (p q : α → Bool) :
    l.countP p = (l.filter q).countP p +
      (l.filter (fun a => !q a)).countP p := by
  induction l with
  | nil => rfl
  | cons a l ih =>
    have h' := ih
    by_cases hq : q a <;> by_cases hp : p a <;>
      simp [List.filter_cons, List.countP_cons, hq, hp] <;> omega

theorem countP_or_disjoint {α : Type} (l : List α) (p q : α → Bool)
    (h : ∀ a ∈ l, ¬(p a = true ∧ q a = true)) :
    l.countP (fun a => p a || q a) = l.countP p + l.countP q := by
  induction l with
  | nil => rfl
  | cons a l ih =>
    have hrec := ih (fun x hx => h x (List.mem_cons_of_mem _ hx))
    have hhead := h a (List.mem_cons_self _ _)
    by_cases hp : p a
    · by_cases hq : q a
      · exact absurd ⟨hp, hq⟩ hhead
      · simp [List.countP_cons, hp, hq, hrec]
        omega
    · by_cases hq : q a
      · simp [List.countP_cons, hp, hq, hrec]
        omega
      · simp [List.countP_cons, hp, hq, hrec]

theorem relDeltaOf_total (g : List SlotRow) :
    (relDeltaOf g).count.getD 0 + (relDeltaOf g).unknown.getD 0 =
      (g.length : Int) := by
  have h1 : (g.filterMap (fun s => s.reward)).length =
      g.countP (fun s => s.reward.isSome) := length_filterMap_opt _ g
  have h2 : g.countP (fun s => s.reward.isNone) =
      g.countP (fun a => !a.reward.isSome) := by
    apply List.countP_congr
    intro s _
    cases s.reward <;> simp
  have h3 := countP_add_not g (fun s => s.reward.isSome)
  unfold relDeltaOf posCount
  by_cases hc : (g.filterMap (fun s => s.reward)).length > 0
  · by_cases hu : g.countP (fun s => s.reward.isNone) > 0
    · simp only [if_pos hc, if_pos hu, Option.getD_some]
      omega
    · simp only [if_pos hc, if_neg hu, Option.getD_some, Option.getD_none]
      omega
  · by_cases hu : g.countP (fun s => s.reward.isNone) > 0
    · simp only [if_neg hc, if_pos hu, Option.getD_some, Option.getD_none]
      omega
    · simp only [if_neg hc, if_neg hu, Option.getD_none]
      omega

/-- The contribution of one relay-level delta to the COALESCE-view count
of a relay name. -/
def relDeltaContrib (R : List Relayer) (r : String)
    (kd : Nat × RelDelta) : Int :=
  if nameOfRid R r kd.1 then kd.2.count.getD 0 + kd.2.unknown.getD 0 else 0

theorem sum_indicator_filter_slots (L : List SlotRow) (P : Nat → Bool) :
    ∀ keys : List Nat, keys.Nodup →
      ((keys.map (fun rid => if P rid then
          ((L.filter (fun s => s.relay_id = rid)).length : Int) else 0)).sum) =
        (L.countP (fun s => decide (s.relay_id ∈ keys) && P s.relay_id) :
          Int) := by
  intro keys
  induction keys with
  | nil => intro _; simp
  | cons x keys ih =>
    intro hnd
    have hx : x ∉ keys := (List.nodup_cons.mp hnd).1
    have hnd' : keys.Nodup := (List.nodup_cons.mp hnd).2
    rw [List.map_cons, List.sum_cons, ih hnd']
    have hsplit : L.countP (fun s => decide (s.relay_id ∈ x :: keys) &&
        P s.relay_id) =
        L.countP (fun s => decide (s.relay_id = x) && P s.relay_id) +
          L.countP (fun s => decide (s.relay_id ∈ keys) && P s.relay_id) := by
      rw [← countP_or_disjoint]
      · apply List.countP_congr
        intro s _
        by_cases h1 : s.relay_id = x
        · have h2 : s.relay_id ∉ keys := by rw [h1]; exact hx
          simp [h1, h2]
        · by_cases h2 : s.relay_id ∈ keys <;> simp [h1, h2]
      · intro s _
        rintro ⟨ha, hb⟩
        simp only [Bool.and_eq_true, decide_eq_true_eq] at ha hb
        exact hx (ha.1 ▸ hb.1)
    rw [hsplit]
    have hhead : (if P x then
        ((L.filter (fun s => s.relay_id = x)).length : Int) else 0) =
        (L.countP (fun s => decide (s.relay_id = x) && P s.relay_id) :
          Int) := by
      by_cases hP : P x
      · rw [if_pos hP, ← List.countP_eq_length_filter]
        congr 1
        apply List.countP_congr
        intro s _
        by_cases h1 : s.relay_id = x
        · rw [h1]
          simp [hP]
        · simp [h1]
      · rw [if_neg hP]
        have hz : L.countP (fun s => decide (s.relay_id = x) &&
            P s.relay_id) = 0 := by
          rw [List.countP_eq_zero]
          intro s _
          simp only [Bool.and_eq_true, decide_eq_true_eq]
          rintro ⟨h1, h2⟩
          rw [h1] at h2
          exact hP h2
        simp [hz]
    rw [hhead]
    push_cast
    ring

theorem sum_group_indicator_slots (L : List SlotRow) (P : Nat → Bool) :
    (((L.map (fun s => s.relay_id)).dedup).map (fun rid => if P rid then
        ((L.filter (fun s => s.relay_id = rid)).length : Int) else 0)).sum =
      (L.countP (fun s => P s.relay_id) : Int) := by
  rw [sum_indicator_filter_slots L P (L.map (fun s => s.relay_id)).dedup
    (L.map (fun s => s.relay_id)).nodup_dedup]
  congr 1
  apply List.countP_congr
  intro s hs
  have hmem : s.relay_id ∈ (L.map (fun s => s.relay_id)).dedup :=
    List.mem_dedup.mpr (List.mem_map_of_mem _ hs)
  simp [hmem]

theorem relDeltas_contrib_sum (db : DB) (c : Int) (r : String) :
    ((relDeltas db c).map (relDeltaContrib db.relayers r)).sum =
      ((db.slots.filter (fun s => s.number < c)).countP
        (slotNameIs db.relayers r) : Int) := by
  unfold relDeltas
  rw [List.map_map]
  have hmap : (((db.slots.filter (fun s => s.number < c)).map
      (fun s => s.relay_id)).dedup).map
      (relDeltaContrib db.relayers r ∘ (fun rid =>
        (rid, relDeltaOf ((db.slots.filter (fun s => s.number < c)).filter
          (fun s => s.relay_id = rid))))) =
      (((db.slots.filter (fun s => s.number < c)).map
        (fun s => s.relay_id)).dedup).map (fun rid =>
          if nameOfRid db.relayers r rid then
            (((db.slots.filter (fun s => s.number < c)).filter
              (fun s => s.relay_id = rid)).length : Int) else 0) := by
    apply List.map_congr_left
    intro rid _
    simp only [Function.comp, relDeltaContrib]
    by_cases h : nameOfRid db.relayers r rid
    · rw [if_pos h, if_pos h, relDeltaOf_total]
    · rw [if_neg h, if_neg h]
  rw [hmap, sum_group_indicator_slots]
  congr 1

end BlockMonitor

namespace BlockMonitor

/-! ### C1: the relayer-rollup upsert and its fold -/

theorem map_eq_self_of_eq {α : Type} (l : List α) (f : α → α)
    (h : ∀ x ∈ l, f x = x) : l.map f = l := by
  induction l with
  | nil => rfl
  | cons a l ih =>
    rw [List.map_cons, h a (List.mem_cons_self _ _),
      ih (fun x hx => h x (List.mem_cons_of_mem _ hx))]

theorem upsertRel_keys (rows : List ArchRelayerRow) (rid : Nat) (d : RelDelta) :
    (upsertRelArchive rows rid d).map (fun a => a.relay_id) =
      if rows.any (fun a => a.relay_id = rid)
      then rows.map (fun a => a.relay_id)
      else rows.map (fun a => a.relay_id) ++ [rid] := by
  unfold upsertRelArchive
  by_cases hany : rows.any (fun a => a.relay_id = rid)
  · rw [if_pos hany, if_pos hany, List.map_map]
    apply List.map_congr_left
    intro a _
    by_cases h : a.relay_id = rid <;> simp [Function.comp, h]
  · rw [if_neg hany, if_neg hany, List.map_append]
    rfl

theorem upsertRel_keys_nodup (rows : List ArchRelayerRow) (rid : Nat)
    (d : RelDelta) (hn : (rows.map (fun a => a.relay_id)).Nodup) :
    ((upsertRelArchive rows rid d).map (fun a => a.relay_id)).Nodup := by
  rw [upsertRel_keys]
  by_cases hany : rows.any (fun a => a.relay_id = rid)
  · rw [if_pos hany]
    exact hn
  · rw [if_neg hany]
    have hnot : rid ∉ rows.map (fun a => a.relay_id) := by
      intro hmem
      rcases List.mem_map.mp hmem with ⟨a, ha, hka⟩
      exact hany (List.any_eq_true.mpr ⟨a, ha, by simpa using hka⟩)
    refine List.Nodup.append hn (List.nodup_singleton _) ?_
    intro y hy hy2
    have hyr : y = rid := by simpa using hy2
    exact hnot (hyr ▸ hy)

theorem rowsTotal_cons (R : List Relayer) (a : ArchRelayerRow)
    (rows : List ArchRelayerRow) (r : String) :
    rowsTotal R (a :: rows) r = rowContrib R r a + rowsTotal R rows r := by
  unfold rowsTotal
  rw [List.map_cons, List.sum_cons]

theorem rowsTotal_append (R : List Relayer) (rows1 rows2 : List ArchRelayerRow)
    (r : String) :
    rowsTotal R (rows1 ++ rows2) r =
      rowsTotal R rows1 r + rowsTotal R rows2 r := by
  unfold rowsTotal
  rw [List.map_append, List.sum_append]

theorem rowsTotal_patch (R : List Relayer) (rid : Nat) (d : RelDelta)
    (r : String) :
    ∀ rows : List ArchRelayerRow, (rows.map (fun a => a.relay_id)).Nodup →
      rows.any (fun a => a.relay_id = rid) = true →
      rowsTotal R (rows.map (fun a => if a.relay_id = rid then
          { a with
            total_slots := some (a.total_slots.getD 0 + d.count.getD 0),
            total_rewards := some (a.total_rewards.getD 0 + d.reward.getD 0),
            total_unknown_slots :=
              some (a.total_unknown_slots.getD 0 + d.unknown.getD 0) }
        else a)) r =
        rowsTotal R rows r + relDeltaContrib R r (rid, d) := by
  intro rows
  induction rows with
  | nil =>
    intro _ h
    cases h
  | cons a rows ih =>
    intro hn hany
    rw [List.map_cons] at hn
    have hn' : (rows.map (fun x => x.relay_id)).Nodup :=
      (List.nodup_cons.mp hn).2
    rw [List.map_cons, rowsTotal_cons, rowsTotal_cons]
    by_cases h : a.relay_id = rid
    · have htail : rows.map (fun x => if x.relay_id = rid then
          { x with
            total_slots := some (x.total_slots.getD 0 + d.count.getD 0),
            total_rewards := some (x.total_rewards.getD 0 + d.reward.getD 0),
            total_unknown_slots :=
              some (x.total_unknown_slots.getD 0 + d.unknown.getD 0) }
        else x) = rows := by
        apply map_eq_self_of_eq
        intro x hx
        have hnotin : a.relay_id ∉ rows.map (fun y => y.relay_id) :=
          (List.nodup_cons.mp hn).1
        have hne : x.relay_id ≠ rid := by
          intro he
          exact hnotin (by
            rw [h]
            exact he ▸ List.mem_map_of_mem _ hx)
        rw [if_neg hne]
      rw [htail, if_pos h, rowContrib_eq, rowContrib_eq]
      unfold relDeltaContrib
      simp only [Option.getD_some]
      rw [h]
      by_cases hnm : nameOfRid R r rid
      · rw [if_pos hnm, if_pos hnm, if_pos hnm]
        ring
      · rw [if_neg hnm, if_neg hnm, if_neg hnm]
        ring
    · rw [if_neg h]
      rw [List.any_cons] at hany
      have hany' : rows.any (fun x => x.relay_id = rid) = true := by
        rcases Bool.or_eq_true_iff.mp hany with hh | hh
        · exact absurd (by simpa using hh) h
        · exact hh
      rw [ih hn' hany']
      ring

theorem rowsTotal_upsert (R : List Relayer) (rows : List ArchRelayerRow)
    (rid : Nat) (d : RelDelta) (r : String)
    (hn : (rows.map (fun a => a.relay_id)).Nodup) :
    rowsTotal R (upsertRelArchive rows rid d) r =
      rowsTotal R rows r + relDeltaContrib R r (rid, d) := by
  unfold upsertRelArchive
  split
  · next hany => exact rowsTotal_patch R rid d r rows hn hany
  · next hany =>
    rw [rowsTotal_append, rowsTotal_cons]
    unfold rowsTotal
    rw [List.map_nil, List.sum_nil, rowContrib_eq]
    unfold relDeltaContrib
    simp

theorem foldl_upsertRel (R : List Relayer) (r : String) :
    ∀ (ds : List (Nat × RelDelta)) (rows : List ArchRelayerRow),
      (rows.map (fun a => a.relay_id)).Nodup →
      ((ds.foldl (fun rs kd => upsertRelArchive rs kd.1 kd.2) rows).map
          (fun a => a.relay_id)).Nodup ∧
      rowsTotal R (ds.foldl (fun rs kd => upsertRelArchive rs kd.1 kd.2)
          rows) r =
        rowsTotal R rows r + (ds.map (relDeltaContrib R r)).sum := by
  intro ds
  induction ds with
  | nil =>
    intro rows hn
    refine ⟨hn, ?_⟩
    simp
  | cons kd ds ih =>
    intro rows hn
    have hstepn := upsertRel_keys_nodup rows kd.1 kd.2 hn
    have hstept := rowsTotal_upsert R rows kd.1 kd.2 r hn
    have hkd : (kd.1, kd.2) = kd := rfl
    rw [hkd] at hstept
    rcases ih (upsertRelArchive rows kd.1 kd.2) hstepn with ⟨h1, h2⟩
    refine ⟨h1, ?_⟩
    calc rowsTotal R ((kd :: ds).foldl
          (fun rs kd => upsertRelArchive rs kd.1 kd.2) rows) r
        = rowsTotal R (ds.foldl (fun rs kd => upsertRelArchive rs kd.1 kd.2)
            (upsertRelArchive rows kd.1 kd.2)) r := rfl
      _ = rowsTotal R (upsertRelArchive rows kd.1 kd.2) r +
            (ds.map (relDeltaContrib R r)).sum := h2
      _ = rowsTotal R rows r + relDeltaContrib R r kd +
            (ds.map (relDeltaContrib R r)).sum := by rw [hstept]
      _ = rowsTotal R rows r + ((kd :: ds).map (relDeltaContrib R r)).sum := by
          rw [List.map_cons, List.sum_cons]
          ring

end BlockMonitor

namespace BlockMonitor

/-! ### C1: step lemmas along an operation sequence -/

theorem liveCountZ_congr (db1 db2 : DB) (hr : db1.relayers = db2.relayers)
    (hs : db1.slots = db2.slots) (r : String) :
    liveCountZ db1 r = liveCountZ db2 r := by
  unfold liveCountZ relayRows relayerOfSlot
  rw [hr, hs]

theorem archCountZ_congr (db1 db2 : DB) (hr : db1.relayers = db2.relayers)
    (ha : archRelRows db1 = archRelRows db2) (r : String) :
    archCountZ db1 r = archCountZ db2 r := by
  unfold archCountZ archRelJoin
  rw [hr, ha]

theorem C1Inv_congr (db1 db2 : DB) (hr : db1.relayers = db2.relayers)
    (ha : archRelRows db1 = archRelRows db2) : C1Inv db1 ↔ C1Inv db2 := by
  unfold C1Inv
  rw [hr, ha]

theorem prune_db_cases (k : Int) (db : DB) :
    (prune_db k db).db = ensureArchive db ∨
    ∃ c : Int, (prune_db k db).db = pruneDelete c (pruneRelayerPass c
      (pruneValidatorPass c (ensureArchive db))) := by
  unfold prune_db
  split
  · left
    rfl
  · next mx hmx =>
    split
    · left
      rfl
    · right
      exact ⟨mx - k, rfl⟩

theorem prune_full_count (c : Int) (db : DB) (hinv : C1Inv db) (r : String) :
    C1Inv (pruneDelete c (pruneRelayerPass c (pruneValidatorPass c db))) ∧
    liveCountZ (pruneDelete c (pruneRelayerPass c
        (pruneValidatorPass c db))) r +
      archCountZ (pruneDelete c (pruneRelayerPass c
        (pruneValidatorPass c db))) r =
      liveCountZ db r + archCountZ db r := by
  rcases hinv with ⟨hids, hnames, harids⟩
  have harch3 : archRelRows (pruneDelete c (pruneRelayerPass c
      (pruneValidatorPass c db))) =
      (relDeltas db c).foldl (fun rs kd => upsertRelArchive rs kd.1 kd.2)
        (archRelRows db) := rfl
  rcases foldl_upsertRel db.relayers r (relDeltas db c) (archRelRows db)
    harids with ⟨hN, hT⟩
  constructor
  · refine ⟨hids, hnames, ?_⟩
    rw [harch3]
    exact hN
  · have hcz : archCountZ (pruneDelete c (pruneRelayerPass c
        (pruneValidatorPass c db))) r =
        rowsTotal db.relayers ((relDeltas db c).foldl
          (fun rs kd => upsertRelArchive rs kd.1 kd.2) (archRelRows db)) r :=
      archCountZ_eq_rowsTotal _ r
    have hsum := relDeltas_contrib_sum db c r
    have hbase : rowsTotal db.relayers (archRelRows db) r =
        archCountZ db r := (archCountZ_eq_rowsTotal db r).symm
    have hlive3 : liveCountZ (pruneDelete c (pruneRelayerPass c
        (pruneValidatorPass c db))) r =
        ((db.slots.filter (fun s => !(s.number < c))).countP
          (slotNameIs db.relayers r) : Int) := liveCountZ_eq_countP _ r
    have hlive : liveCountZ db r =
        ((db.slots.countP (slotNameIs db.relayers r) : Nat) : Int) :=
      liveCountZ_eq_countP db r
    have hsplit : db.slots.countP (slotNameIs db.relayers r) =
        (db.slots.filter (fun s => s.number < c)).countP
          (slotNameIs db.relayers r) +
        (db.slots.filter (fun s => !(s.number < c))).countP
          (slotNameIs db.relayers r) :=
      countP_filter_split db.slots (slotNameIs db.relayers r)
        (fun s => s.number < c)
    rw [hcz, hT, hsum, hbase, hlive3, hlive]
    omega

theorem prune_step (k : Int) (db : DB) (hinv : C1Inv db) (r : String) :
    C1Inv ((prune_db k db).db) ∧
    liveCountZ ((prune_db k db).db) r + archCountZ ((prune_db k db).db) r =
      liveCountZ db r + archCountZ db r := by
  have hbase : C1Inv (ensureArchive db) :=
    (C1Inv_congr (ensureArchive db) db (ensureArchive_relayers db)
      (ensureArchive_archRel db)).mpr hinv
  rcases prune_db_cases k db with h | ⟨c, h⟩
  · rw [h]
    refine ⟨hbase, ?_⟩
    rw [liveCountZ_congr (ensureArchive db) db (ensureArchive_relayers db)
        (ensureArchive_slots db) r,
      archCountZ_congr (ensureArchive db) db (ensureArchive_relayers db)
        (ensureArchive_archRel db) r]
  · rw [h]
    rcases prune_full_count c (ensureArchive db) hbase r with ⟨h1, h2⟩
    refine ⟨h1, ?_⟩
    rw [h2, liveCountZ_congr (ensureArchive db) db (ensureArchive_relayers db)
        (ensureArchive_slots db) r,
      archCountZ_congr (ensureArchive db) db (ensureArchive_relayers db)
        (ensureArchive_archRel db) r]

end BlockMonitor

namespace BlockMonitor

theorem append_slot_count (db : DB) (row : SlotRow) (rl : Relayer)
    (hids : (db.relayers.map (fun x => x.id)).Nodup)
    (hmem : rl ∈ db.relayers) (hrid : row.relay_id = rl.id) (r : String) :
    liveCountZ { db with slots := db.slots ++ [row] } r =
      liveCountZ db r + (if rl.name = r then 1 else 0) := by
  have h1 : liveCountZ { db with slots := db.slots ++ [row] } r =
      (((db.slots ++ [row]).countP (slotNameIs db.relayers r) : Nat) : Int) :=
    liveCountZ_eq_countP _ r
  have h2 : liveCountZ db r =
      ((db.slots.countP (slotNameIs db.relayers r) : Nat) : Int) :=
    liveCountZ_eq_countP db r
  have hfind : db.relayers.find? (fun w => w.id = rl.id) = some rl :=
    find?_key_of_mem_nodup db.relayers (fun x => x.id) hids rl hmem
  have hrow : slotNameIs db.relayers r row = decide (rl.name = r) := by
    rw [slotNameIs_eq]
    unfold nameOfRid
    rw [hrid, hfind]
  have h3 : ([row].countP (slotNameIs db.relayers r)) =
      if rl.name = r then 1 else 0 := by
    rw [List.countP_cons, List.countP_nil, hrow]
    by_cases hh : rl.name = r <;> simp [hh]
  rw [h1, h2, List.countP_append, h3]
  by_cases hh : rl.name = r
  · rw [if_pos hh, if_pos hh]
    push_cast
    ring
  · rw [if_neg hh, if_neg hh]
    push_cast
    ring

theorem ins_step (n : Int) (p rel : String) (m e : Bool) (rw0 : ℚ) (db : DB)
    (hinv : C1Inv db) (r : String) :
    C1Inv ((insert_new_slot n p rel m e rw0 db).db) ∧
    liveCountZ ((insert_new_slot n p rel m e rw0 db).db) r +
        archCountZ ((insert_new_slot n p rel m e rw0 db).db) r =
      liveCountZ db r + archCountZ db r +
        everInc (Op.ins n p rel m e rw0) db r := by
  cases hf : db.relayers.find? (fun x => x.name = rel) with
  | none =>
    have hres : insert_new_slot n p rel m e rw0 db =
        { ok := false, db := db } := by
      simp [insert_new_slot, hf]
    have hinc : everInc (Op.ins n p rel m e rw0) db r = 0 := by
      simp [everInc, ingestRec?, hf]
    rw [hres, hinc]
    exact ⟨hinv, by ring⟩
  | some rl =>
    have hname : rl.name = rel := by
      have := List.find?_some hf
      simpa using this
    have hmem : rl ∈ db.relayers := List.mem_of_find?_eq_some hf
    by_cases hdup : db.slots.any (fun s => s.number = n)
    · have hres : insert_new_slot n p rel m e rw0 db =
          { ok := true, db := db } := by
        simp [insert_new_slot, hf, hdup]
      have hinc : everInc (Op.ins n p rel m e rw0) db r = 0 := by
        simp [everInc, ingestRec?, hf, hdup]
      rw [hres, hinc]
      exact ⟨hinv, by ring⟩
    · have hinc : everInc (Op.ins n p rel m e rw0) db r =
          if rel = r then 1 else 0 := by
        simp [everInc, ingestRec?, hf, hdup]
      cases hp : db.validators.find? (fun v => v.public_key = p) with
      | none =>
        have hres : (insert_new_slot n p rel m e rw0 db).db =
            { db with slots := db.slots ++
              [{ number := n, proposer_id := none,
                 proposer_pubkey := some p, relay_id := rl.id,
                 missed := m, empty := e,
                 reward := if rw0 = -1 then none else some rw0 }] } := by
          simp [insert_new_slot, hf, hdup, hp]
        rw [hres]
        constructor
        · exact hinv
        · have hlive := append_slot_count db
            { number := n, proposer_id := none, proposer_pubkey := some p,
              relay_id := rl.id, missed := m, empty := e,
              reward := if rw0 = -1 then none else some rw0 } rl
            hinv.1 hmem rfl r
          rw [hlive, hinc, hname]
          have harch : archCountZ { db with slots := db.slots ++
              [{ number := n, proposer_id := none,
                 proposer_pubkey := some p, relay_id := rl.id,
                 missed := m, empty := e,
                 reward := if rw0 = -1 then none else some rw0 }] } r =
              archCountZ db r := rfl
          rw [harch]
          ring
      | some v =>
        have hres : (insert_new_slot n p rel m e rw0 db).db =
            { db with slots := db.slots ++
              [{ number := n, proposer_id := some v.id,
                 proposer_pubkey := none, relay_id := rl.id,
                 missed := m, empty := e,
                 reward := if rw0 = -1 then none else some rw0 }] } := by
          simp [insert_new_slot, hf, hdup, hp]
        rw [hres]
        constructor
        · exact hinv
        · have hlive := append_slot_count db
            { number := n, proposer_id := some v.id, proposer_pubkey := none,
              relay_id := rl.id, missed := m, empty := e,
              reward := if rw0 = -1 then none else some rw0 } rl
            hinv.1 hmem rfl r
          rw [hlive, hinc, hname]
          have harch : archCountZ { db with slots := db.slots ++
              [{ number := n, proposer_id := some v.id,
                 proposer_pubkey := none, relay_id := rl.id,
                 missed := m, empty := e,
                 reward := if rw0 = -1 then none else some rw0 }] } r =
              archCountZ db r := rfl
          rw [harch]
          ring

theorem applyOp_step (op : Op) (db : DB) (hinv : C1Inv db) (r : String) :
    C1Inv (applyOp op db) ∧
    liveCountZ (applyOp op db) r + archCountZ (applyOp op db) r =
      liveCountZ db r + archCountZ db r + everInc op db r := by
  cases op with
  | ins n p rel m e rw0 => exact ins_step n p rel m e rw0 db hinv r
  | prune k =>
    rcases prune_step k db hinv r with ⟨h1, h2⟩
    have hz : everInc (Op.prune k) db r = 0 := rfl
    have ha : applyOp (Op.prune k) db = (prune_db k db).db := rfl
    refine ⟨h1, ?_⟩
    rw [ha, hz, h2]
    ring

theorem runDB_c1 (ops : List Op) : ∀ db : DB, C1Inv db →
    C1Inv (runDB ops db) ∧ ∀ r : String,
      liveCountZ (runDB ops db) r + archCountZ (runDB ops db) r =
        liveCountZ db r + archCountZ db r + everZ ops db r := by
  induction ops with
  | nil =>
    intro db h
    refine ⟨h, ?_⟩
    intro r
    have hz : everZ [] db r = 0 := rfl
    have hr0 : runDB [] db = db := rfl
    rw [hr0, hz]
    ring
  | cons op ops ih =>
    intro db h
    have hstep1 : C1Inv (applyOp op db) := (applyOp_step op db h "").1
    rcases ih (applyOp op db) hstep1 with ⟨h1, h2⟩
    refine ⟨h1, ?_⟩
    intro r
    have hs := (applyOp_step op db h r).2
    have hrun : runDB (op :: ops) db = runDB ops (applyOp op db) := rfl
    rw [hrun, h2 r, hs, everZ_cons]
    ring

end BlockMonitor

namespace BlockMonitor

/-! ### C1: reading the combined metric off the final state -/

theorem dlookup_some_mem {V : Type} (d : Dict V) (k : String) (w : Option V)
    (h : dlookup d k = some w) : (k, w) ∈ d := by
  unfold dlookup at h
  rcases Option.map_eq_some'.mp h with ⟨q, hfind, hw⟩
  have hk := List.find?_some hfind
  simp only [decide_eq_true_eq] at hk
  have hmem := List.mem_of_find?_eq_some hfind
  have hq : q = (k, w) := Prod.ext hk hw
  rw [← hq]
  exact hmem

theorem archRelJoin_sub (db : DB) : ∀ p ∈ archRelJoin db,
    p.1 ∈ db.relayers ∧ p.2 ∈ archRelRows db ∧ p.1.id = p.2.relay_id := by
  intro p hp
  unfold archRelJoin at hp
  rcases List.mem_filterMap.mp hp with ⟨x, hx, hmap⟩
  rcases Option.map_eq_some'.mp hmap with ⟨q, hfind, hpair⟩
  have hp1 : p.1 = q := by rw [← hpair]
  have hp2 : p.2 = x := by rw [← hpair]
  refine ⟨hp1 ▸ List.mem_of_find?_eq_some hfind, hp2 ▸ hx, ?_⟩
  have hps := List.find?_some hfind
  simp only [decide_eq_true_eq] at hps
  rw [hp1, hp2, hps]

theorem archRelJoin_det (db : DB)
    (hnames : (db.relayers.map (fun rl => rl.name)).Nodup)
    (harids : ((archRelRows db).map (fun a => a.relay_id)).Nodup) :
    ∀ p ∈ archRelJoin db, ∀ q ∈ archRelJoin db, p.1.name = q.1.name →
      p = q := by
  intro p hp q hq hname
  rcases archRelJoin_sub db p hp with ⟨hp1, hp2, hp3⟩
  rcases archRelJoin_sub db q hq with ⟨hq1, hq2, hq3⟩
  have h1 : p.1 = q.1 := List.inj_on_of_nodup_map hnames hp1 hq1 hname
  have h2 : p.2 = q.2 := by
    apply List.inj_on_of_nodup_map harids hp2 hq2
    rw [← hp3, ← hq3, h1]
  exact Prod.ext h1 h2

theorem archRelJoin_nodup (db : DB)
    (harids : ((archRelRows db).map (fun a => a.relay_id)).Nodup) :
    (archRelJoin db).Nodup := by
  have hmsnd : (archRelJoin db).map Prod.snd =
      (archRelRows db).filter (fun x =>
        (db.relayers.find? (fun rl => rl.id = x.relay_id)).isSome) := by
    unfold archRelJoin
    exact filterMap_pair_snd (archRelRows db)
      (fun (x : ArchRelayerRow) =>
        db.relayers.find? (fun rl => rl.id = x.relay_id))
  have hcomp : (archRelJoin db).map (fun p => p.2.relay_id) =
      ((archRelJoin db).map Prod.snd).map
        (fun (x : ArchRelayerRow) => x.relay_id) := by
    rw [List.map_map]
    rfl
  have hsndN : ((archRelJoin db).map (fun p => p.2.relay_id)).Nodup := by
    rw [hcomp, hmsnd]
    exact ((List.filter_sublist _).map
      (fun (x : ArchRelayerRow) => x.relay_id)).nodup harids
  exact List.Nodup.of_map _ hsndN

theorem archTotal_eq (db : DB)
    (hnames : (db.relayers.map (fun rl => rl.name)).Nodup)
    (harids : ((archRelRows db).map (fun a => a.relay_id)).Nodup) :
    archive_get_total_relay_blocks_proposed db = (archRelJoin db).map
      (fun p => (p.1.name,
        p.2.total_slots.map (fun t => t + p.2.total_unknown_slots.getD 0))) := by
  unfold archive_get_total_relay_blocks_proposed
  apply buildDict_of_nodup
  rw [List.map_map]
  apply List.Nodup.map_on
  · intro p hp q hq h
    exact archRelJoin_det db hnames harids p hp q hq h
  · exact archRelJoin_nodup db harids

theorem archTotal_keys_nodup (db : DB)
    (hnames : (db.relayers.map (fun rl => rl.name)).Nodup)
    (harids : ((archRelRows db).map (fun a => a.relay_id)).Nodup) :
    ((archive_get_total_relay_blocks_proposed db).map Prod.fst).Nodup := by
  rw [archTotal_eq db hnames harids, List.map_map]
  apply List.Nodup.map_on
  · intro p hp q hq h
    exact archRelJoin_det db hnames harids p hp q hq h
  · exact archRelJoin_nodup db harids

theorem archTotal_lookup_some (db : DB)
    (hnames : (db.relayers.map (fun rl => rl.name)).Nodup)
    (harids : ((archRelRows db).map (fun a => a.relay_id)).Nodup)
    (rel : Relayer) (a : ArchRelayerRow) (hmem : (rel, a) ∈ archRelJoin db) :
    dlookup (archive_get_total_relay_blocks_proposed db) rel.name =
      some (a.total_slots.map (fun t => t + a.total_unknown_slots.getD 0)) := by
  rw [archTotal_eq db hnames harids]
  unfold dlookup
  have hfind : (((archRelJoin db).map (fun p => (p.1.name,
      p.2.total_slots.map (fun t => t + p.2.total_unknown_slots.getD 0)))).find?
        (fun q => q.1 = rel.name)) =
      some (rel.name,
        a.total_slots.map (fun t => t + a.total_unknown_slots.getD 0)) := by
    apply find?_eq_some_of_unique
    · exact List.mem_map_of_mem _ hmem
    · simp
    · intro y hy hpy
      rcases List.mem_map.mp hy with ⟨p, hp, hpf⟩
      have hpn : p.1.name = rel.name := by
        have hy1 : y.1 = rel.name := by simpa using hpy
        rw [← hpf] at hy1
        exact hy1
      have hpeq : p = (rel, a) :=
        archRelJoin_det db hnames harids p hp (rel, a) hmem (by rw [hpn])
      rw [← hpf, hpeq]
  rw [hfind]
  rfl

theorem archTotal_lookup_none (db : DB)
    (hnames : (db.relayers.map (fun rl => rl.name)).Nodup)
    (harids : ((archRelRows db).map (fun a => a.relay_id)).Nodup)
    (s : String) (habs : ∀ p ∈ archRelJoin db, p.1.name ≠ s) :
    dlookup (archive_get_total_relay_blocks_proposed db) s = none := by
  rw [archTotal_eq db hnames harids]
  unfold dlookup
  have hfind : (((archRelJoin db).map (fun p => (p.1.name,
      p.2.total_slots.map (fun t => t + p.2.total_unknown_slots.getD 0)))).find?
        (fun q => q.1 = s)) = none := by
    rw [List.find?_eq_none]
    intro q hq
    rcases List.mem_map.mp hq with ⟨p, hp, hpf⟩
    simp only [decide_eq_true_eq]
    intro hqs
    apply habs p hp
    rw [← hpf] at hqs
    exact hqs
  rw [hfind]
  rfl

theorem sum_filterMap_unique {α : Type} (l : List α) (f : α → Option Int)
    (x : α) (v : Int) (hx : x ∈ l) (hnd : l.Nodup)
    (hother : ∀ y ∈ l, y ≠ x → f y = none) (hv : f x = some v) :
    (l.filterMap f).sum = v := by
  induction l with
  | nil => cases hx
  | cons a l ih =>
    rcases List.mem_cons.mp hx with h | h
    · subst h
      have hrest : l.filterMap f = [] := by
        rw [List.filterMap_eq_nil_iff]
        intro y hy
        apply hother y (List.mem_cons_of_mem _ hy)
        intro he
        exact (List.nodup_cons.mp hnd).1 (he ▸ hy)
      rw [List.filterMap_cons, hv, hrest]
      simp
    · have hax : a ≠ x := by
        intro he
        exact (List.nodup_cons.mp hnd).1 (he ▸ h)
      have hfa : f a = none := hother a (List.mem_cons_self _ _) hax
      rw [List.filterMap_cons, hfa]
      exact ih h (List.nodup_cons.mp hnd).2
        (fun y hy hyx => hother y (List.mem_cons_of_mem _ hy) hyx)

theorem archCountZ_of_pair (db : DB)
    (hnames : (db.relayers.map (fun rl => rl.name)).Nodup)
    (harids : ((archRelRows db).map (fun a => a.relay_id)).Nodup)
    (rel : Relayer) (a : ArchRelayerRow) (hmem : (rel, a) ∈ archRelJoin db)
    (r : String) (hname : rel.name = r) :
    archCountZ db r = a.total_slots.getD 0 + a.total_unknown_slots.getD 0 := by
  unfold archCountZ
  apply sum_filterMap_unique (archRelJoin db) _ (rel, a) _ hmem
    (archRelJoin_nodup db harids)
  · intro y hy hyx
    by_cases hyn : y.1.name = r
    · exact absurd (archRelJoin_det db hnames harids y hy (rel, a) hmem
        (by rw [hyn, hname])) hyx
    · simp [hyn]
  · simp [hname]

theorem archCountZ_of_absent (db : DB) (r : String)
    (habs : ∀ p ∈ archRelJoin db, p.1.name ≠ r) :
    archCountZ db r = 0 := by
  unfold archCountZ
  have hnil : (archRelJoin db).filterMap (fun p => if p.1.name = r then
      some (p.2.total_slots.getD 0 + p.2.total_unknown_slots.getD 0)
      else none) = [] := by
    rw [List.filterMap_eq_nil_iff]
    intro p hp
    simp [habs p hp]
  rw [hnil]
  rfl

theorem countDict_eq (rows : List (String × SlotRow)) :
    countDict rows = (rows.map Prod.fst).dedup.map (fun x =>
      (x, some ((rows.countP (fun p => p.1 = x) : Nat) : Int))) := by
  unfold countDict
  have hentries : (groupPairs rows).map
      (fun kg => (kg.1, some ((kg.2.length : Nat) : Int))) =
      (rows.map Prod.fst).dedup.map (fun x =>
        (x, some ((rows.countP (fun p => p.1 = x) : Nat) : Int))) := by
    simp only [groupPairs, List.map_map]
    apply List.map_congr_left
    intro x _
    simp only [Function.comp]
    rw [length_filterMap_eq_countP]
  rw [hentries]
  apply buildDict_of_nodup
  rw [List.map_map]
  have hid : ((rows.map Prod.fst).dedup.map (Prod.fst ∘ (fun x =>
      (x, some ((rows.countP (fun p => p.1 = x) : Nat) : Int))))) =
      (rows.map Prod.fst).dedup := List.map_id' _
  rw [hid]
  exact (rows.map Prod.fst).nodup_dedup

theorem countDict_keys_nodup (rows : List (String × SlotRow)) :
    ((countDict rows).map Prod.fst).Nodup := by
  rw [countDict_eq, List.map_map]
  have hid : ((rows.map Prod.fst).dedup.map (Prod.fst ∘ (fun x =>
      (x, some ((rows.countP (fun p => p.1 = x) : Nat) : Int))))) =
      (rows.map Prod.fst).dedup := List.map_id' _
  rw [hid]
  exact (rows.map Prod.fst).nodup_dedup

theorem countDict_values_some (rows : List (String × SlotRow)) :
    ∀ kv ∈ countDict rows, kv.2.isSome := by
  rw [countDict_eq]
  intro kv hkv
  rcases List.mem_map.mp hkv with ⟨x, _, hx⟩
  rw [← hx]
  rfl

end BlockMonitor

namespace BlockMonitor

/-- C1 (amended): over any sequence of `insert_new_slot` / `prune_db`
calls from an initial state with distinct relayer ids and names, an empty
slots table and an empty (or absent) archive relayer rollup, and provided
every archive relayer row of the final state carries a non-NULL
`total_slots`, the combined `TotalRelayBlocksProposed` metric counts each
relay's slots exactly once: the relay's key is either absent with zero
slots ever ingested for it, or present with value exactly the number of
distinct slots ever ingested for it.  (Without the non-NULL proviso the
claim fails: a pruned batch consisting solely of unknown-reward slots
leaves `total_slots` NULL, and the query's
`total_slots + COALESCE(total_unknown_slots, 0)` NULL-poisons, which the
counterexample exhibits.) -/
theorem claim1_no_double_counting (ops : List Op) (db0 : DB) (r : String)
    (hinv : C1Inv db0) (hslots : db0.slots = [])
    (harch : archRelRows db0 = [])
    (hts : ∀ a ∈ archRelRows (runDB ops db0), a.total_slots.isSome) :
    ∃ d, combinedTotalRelay (runDB ops db0) = some d ∧
      ((dlookup d r = none ∧ everZ ops db0 r = 0) ∨
        dlookup d r = some (some (everZ ops db0 r))) := by
  rcases runDB_c1 ops db0 hinv with ⟨hinvF, hcnt⟩
  have hlive0 : liveCountZ db0 r = 0 := by
    unfold liveCountZ relayRows
    rw [hslots]
    rfl
  have harch0 : archCountZ db0 r = 0 := by
    unfold archCountZ archRelJoin
    rw [harch]
    rfl
  have hbal : liveCountZ (runDB ops db0) r + archCountZ (runDB ops db0) r =
      everZ ops db0 r := by
    rw [hcnt r, hlive0, harch0]
    ring
  rcases hinvF with ⟨hidsF, hnamesF, haridsF⟩
  have hregN : ((get_total_relay_blocks_proposed (runDB ops db0)).map
      Prod.fst).Nodup := countDict_keys_nodup _
  have haccEq : (archive_get_total_relay_blocks_proposed
      (runDB ops db0)).foldl (fun d kv => dictUpsert d kv.1 kv.2) [] =
      archive_get_total_relay_blocks_proposed (runDB ops db0) :=
    buildDict_of_nodup _ (archTotal_keys_nodup _ hnamesF haridsF)
  have hcompat : ∀ kv ∈ get_total_relay_blocks_proposed (runDB ops db0),
      ∀ w, dlookup ((archive_get_total_relay_blocks_proposed
        (runDB ops db0)).foldl (fun d kv => dictUpsert d kv.1 kv.2) [])
        kv.1 = some w →
      (w.isSome ∧ kv.2.isSome) := by
    intro kv hkv w hw
    rw [haccEq] at hw
    constructor
    · have hmem := dlookup_some_mem _ _ _ hw
      rw [archTotal_eq _ hnamesF haridsF] at hmem
      rcases List.mem_map.mp hmem with ⟨q, hq, hqf⟩
      have hw2 : w = q.2.total_slots.map
          (fun t => t + q.2.total_unknown_slots.getD 0) := by
        have hsnd := congrArg Prod.snd hqf
        simpa using hsnd.symm
      rcases Option.isSome_iff_exists.mp
        (hts q.2 (archRelJoin_sub _ q hq).2.1) with ⟨ts, hts2⟩
      rw [hw2, hts2]
      rfl
    · exact countDict_values_some _ kv hkv
  rcases join_add_fold (get_total_relay_blocks_proposed (runDB ops db0))
      ((archive_get_total_relay_blocks_proposed (runDB ops db0)).foldl
        (fun d kv => dictUpsert d kv.1 kv.2) []) hregN hcompat with
    ⟨d, hd, h1, h2, h3⟩
  refine ⟨d, hd, ?_⟩
  have hregLook : dlookup (get_total_relay_blocks_proposed
      (runDB ops db0)) r =
      if 0 < (relayRows (runDB ops db0)).countP (fun q => q.1 = r) then
        some (some (((relayRows (runDB ops db0)).countP
          (fun q => q.1 = r) : Nat) : Int))
      else none := dlookup_countDict (relayRows (runDB ops db0)) r
  have hliveF : liveCountZ (runDB ops db0) r =
      (((relayRows (runDB ops db0)).countP (fun q => q.1 = r) : Nat) :
        Int) := rfl
  by_cases hex : ∃ q ∈ archRelJoin (runDB ops db0), q.1.name = r
  · rcases hex with ⟨⟨rel, a⟩, hmem, hname⟩
    rcases Option.isSome_iff_exists.mp
      (hts a (archRelJoin_sub _ (rel, a) hmem).2.1) with ⟨ts, hts2⟩
    have harchLook : dlookup (archive_get_total_relay_blocks_proposed
        (runDB ops db0)) r =
        some (some (ts + a.total_unknown_slots.getD 0)) := by
      have h0 := archTotal_lookup_some _ hnamesF haridsF rel a hmem
      rw [hname, hts2] at h0
      simpa using h0
    have harchCnt : archCountZ (runDB ops db0) r =
        ts + a.total_unknown_slots.getD 0 := by
      have h0 := archCountZ_of_pair _ hnamesF haridsF rel a hmem r hname
      rw [hts2] at h0
      simpa using h0
    by_cases hc : 0 < (relayRows (runDB ops db0)).countP (fun q => q.1 = r)
    · right
      have hreg2 : dlookup (get_total_relay_blocks_proposed
          (runDB ops db0)) r =
          some (some (((relayRows (runDB ops db0)).countP
            (fun q => q.1 = r) : Nat) : Int)) := by
        rw [hregLook, if_pos hc]
      have hacc2 : dlookup ((archive_get_total_relay_blocks_proposed
          (runDB ops db0)).foldl (fun d kv => dictUpsert d kv.1 kv.2) [])
          r = some (some (ts + a.total_unknown_slots.getD 0)) := by
        rw [haccEq]
        exact harchLook
      rw [h3 r _ _ hacc2 hreg2]
      have hval : ts + a.total_unknown_slots.getD 0 +
          (((relayRows (runDB ops db0)).countP
            (fun q => q.1 = r) : Nat) : Int) =
          everZ ops db0 r := by
        rw [← hbal, hliveF, harchCnt]
        ring
      rw [hval]
    · have hcz : (relayRows (runDB ops db0)).countP (fun q => q.1 = r) =
          0 := by omega
      have hreg2 : dlookup (get_total_relay_blocks_proposed
          (runDB ops db0)) r = none := by
        rw [hregLook, if_neg hc]
      right
      rw [h2 r hreg2, haccEq, harchLook]
      have hval : ts + a.total_unknown_slots.getD 0 = everZ ops db0 r := by
        rw [← hbal, hliveF, harchCnt, hcz]
        push_cast
        ring
      rw [hval]
  · push_neg at hex
    have harchLook : dlookup (archive_get_total_relay_blocks_proposed
        (runDB ops db0)) r = none :=
      archTotal_lookup_none _ hnamesF haridsF r hex
    have harchCnt : archCountZ (runDB ops db0) r = 0 :=
      archCountZ_of_absent _ r hex
    by_cases hc : 0 < (relayRows (runDB ops db0)).countP (fun q => q.1 = r)
    · right
      have hacc2 : dlookup ((archive_get_total_relay_blocks_proposed
          (runDB ops db0)).foldl (fun d kv => dictUpsert d kv.1 kv.2) [])
          r = none := by
        rw [haccEq]
        exact harchLook
      rw [h1 r hacc2, hregLook, if_pos hc]
      have hval : (((relayRows (runDB ops db0)).countP
          (fun q => q.1 = r) : Nat) : Int) = everZ ops db0 r := by
        rw [← hbal, hliveF, harchCnt]
        ring
      rw [hval]
    · left
      have hcz : (relayRows (runDB ops db0)).countP (fun q => q.1 = r) =
          0 := by omega
      have hreg2 : dlookup (get_total_relay_blocks_proposed
          (runDB ops db0)) r = none := by
        rw [hregLook, if_neg hc]
      constructor
      · rw [h2 r hreg2, haccEq]
        exact harchLook
      · rw [← hbal, hliveF, harchCnt, hcz]
        simp

end BlockMonitor

namespace BlockMonitor

/-- A second relayer row for the C1 scenarios. -/
def relC1b : Relayer := { id := 2, name := "R2", endpoint := "e2" }

/-- A two-relayer database with an empty slots table. -/
def dbC1 : DB :=
  { validators := [], relayers := [relW, relC1b], slots := [], archive := none,
    sync := none, has_val_index := false }

/-- The C1 counterexample trace: one unknown-reward slot for relay "R",
one known-reward slot for relay "R2", then a prune that archives the
first slot. -/
def opsC1 : List Op :=
  [.ins 1 "p" "R" false false (-1), .ins 2 "p" "R2" false false 5, .prune 0]

/-- C1 counterexample: the pruned batch for relay "R" consists solely of
an unknown-reward slot, so its archive row has NULL `total_slots`; the
query's `total_slots + COALESCE(total_unknown_slots, 0)` then yields SQL
NULL and the combined metric reports NULL (None) for "R", although
exactly one slot was ever ingested for that relay. -/
theorem claim1_counterexample :
    everZ opsC1 dbC1 "R" = 1 ∧
    combinedTotalRelay (runDB opsC1 dbC1) =
      some [("R", none), ("R2", some 1)] := by
  constructor
  · rfl
  · rfl

/-- The C1 witness trace: two known-reward slots for relay "R", then a
prune that archives the first. -/
def opsC1W : List Op :=
  [.ins 1 "p" "R" false false 2, .ins 2 "q" "R" false false 3, .prune 0]

/-- C1 witness: the amended no-double-counting theorem applied to a
concrete trace that ingests two slots for relay "R" and prunes one of
them into the archive rollup — the combined metric still reports 2. -/
theorem claim1_witness :
    C1Inv dbNoSlots ∧ dbNoSlots.slots = [] ∧ archRelRows dbNoSlots = [] ∧
    (∀ a ∈ archRelRows (runDB opsC1W dbNoSlots), a.total_slots.isSome) ∧
    ∃ d, combinedTotalRelay (runDB opsC1W dbNoSlots) = some d ∧
      ((dlookup d "R" = none ∧ everZ opsC1W dbNoSlots "R" = 0) ∨
        dlookup d "R" = some (some (everZ opsC1W dbNoSlots "R"))) :=
  ⟨⟨by decide, by decide, by decide⟩, rfl, rfl, by decide,
    claim1_no_double_counting opsC1W dbNoSlots "R"
      ⟨by decide, by decide, by decide⟩ rfl rfl (by decide)⟩

end BlockMonitor
